import Mathlib

/-!
Verification of the report-assembly engine of `src/backend/app_full.py`
(inspection-proto).  The Python functions are shallowly embedded as Lean
definitions: the filesystem is a predicate `String → Bool` (one existence
check per path), `python-docx` documents are lists of blocks (paragraphs,
tables, pictures), and dynamically-typed record values are modelled by
`PyVal` with `Except` for the exceptions Python would raise.
-/

set_option maxRecDepth 100000

namespace Inspection

/-! ## String utilities (models of the Python `str` operations used) -/

/-- Model of Python `str.lower()` (ASCII; the code only handles ASCII names). -/
def lowerStr (s : String) : String := String.mk (s.data.map Char.toLower)

/-- Model of Python `str.upper()` (ASCII). -/
def upperStr (s : String) : String := String.mk (s.data.map Char.toUpper)

/-- `subListAt l n` : does list `l` start with `n`? -/
def subListAt : List Char → List Char → Bool
  | _, [] => true
  | [], _ :: _ => false
  | a :: as, b :: bs => a == b && subListAt as bs

/-- Does `needle` occur somewhere in `hay`?  (Python `needle in hay`.) -/
def containsChars (hay needle : List Char) : Bool :=
  match hay with
  | [] => subListAt [] needle
  | _ :: t => subListAt hay needle || containsChars t needle

/-- Python `needle in hay` on strings. -/
def containsStr (needle hay : String) : Bool := containsChars hay.data needle.data

/-- One fuel-indexed pass of Python `str.replace`: leftmost, non-overlapping.
The fuel starts at the haystack length, which suffices because every step
consumes at least one character. -/
def replaceGo (needle repl : List Char) : Nat → List Char → List Char
  | 0, l => l
  | _ + 1, [] => []
  | fuel + 1, c :: t =>
    if subListAt (c :: t) needle then
      repl ++ replaceGo needle repl fuel ((c :: t).drop needle.length)
    else c :: replaceGo needle repl fuel t

/-- Model of Python `hay.replace(needle, repl)`.  The tokens replaced by the
code are always of the form `{{NAME}}`, so the empty-needle corner of
Python's `replace` is irrelevant; we return `hay` unchanged there. -/
def strReplace (hay needle repl : String) : String :=
  if needle.data.isEmpty then hay
  else String.mk (replaceGo needle.data repl.data hay.data.length hay.data)

/-- Is `c` one of `[a-z0-9]` (the characters kept by the slug regex)? -/
def isSlugChar (c : Char) : Bool :=
  (('a' ≤ c) && (c ≤ 'z')) || (('0' ≤ c) && (c ≤ '9'))

/-- Model of `re.sub(r"[^a-z0-9]+", "_", ·)`: every maximal run of
non-slug characters becomes a single underscore.  The boolean records
whether we are inside such a run. -/
def collapseAux : Bool → List Char → List Char
  | _, [] => []
  | inRun, c :: t =>
    if isSlugChar c then c :: collapseAux false t
    else if inRun then collapseAux true t
    else '_' :: collapseAux true t

/-- Model of Python `str.strip("_")`. -/
def stripUnderscores (l : List Char) : List Char :=
  ((l.dropWhile (· == '_')).reverse.dropWhile (· == '_')).reverse

/-- `slugify_trade` (app_full.py line 154):
`re.sub(r"[^a-z0-9]+", "_", (trade or "").lower()).strip("_")`. -/
def slugifyTrade (trade : String) : String :=
  String.mk (stripUnderscores (collapseAux false (lowerStr trade).data))

/-- `slugify_company` (app_full.py line 158): like `slugify_trade` but
falling back to `"default"` when the slug comes out empty. -/
def slugifyCompany (company : String) : String :=
  let s := String.mk (stripUnderscores (collapseAux false (lowerStr company).data))
  if s = "" then "default" else s

/-! ## Template store paths

`BASE_DIR` (an absolute runtime directory) is elided; all paths are
relative to it, and `os.path.join` on the non-empty components used here
is plain `/`-concatenation. -/

def TEMPLATE_DIR : String := "templates"

def COMPANY_TEMPLATE_DIR : String := TEMPLATE_DIR ++ "/companies"

def GLOBAL_TEMPLATE_DIR : String := TEMPLATE_DIR ++ "/global"

def DEFAULT_TEMPLATE_PATH : String := TEMPLATE_DIR ++ "/default_report_template.docx"

/-- `templates/companies/{company_slug}/Project/report.docx`
(app_full.py lines 227–229). -/
def companyProjectTemplate (companySlug : String) : String :=
  COMPANY_TEMPLATE_DIR ++ "/" ++ companySlug ++ "/Project/report.docx"

/-- `templates/global/{trade_slug}_report_template.docx`
(app_full.py line 234). -/
def globalTemplatePath (trade : String) : String :=
  GLOBAL_TEMPLATE_DIR ++ "/" ++ slugifyTrade trade ++ "_report_template.docx"

/-- The constant detail string of the `HTTPException` raised when no
template exists (app_full.py lines 242–245). -/
def noTemplateDetail : String :=
  "No DOCX template found. Please upload a template or add default_report_template.docx."

/-- `get_template_for_trade` (app_full.py lines 209–245).  The filesystem is
abstracted by `ex : String → Bool` (`os.path.exists`); the raised
`HTTPException` becomes the `Except.error` case carrying its detail. -/
def getTemplateForTrade (ex : String → Bool) (trade : String) (company : Option String) :
    Except String String :=
  let companySlug : Option String :=
    match company with
    | some c => if c = "" then none else some (slugifyCompany c)
    | none => none
  let afterCompany : Option String :=
    match companySlug with
    | some cs => if ex (companyProjectTemplate cs) then some (companyProjectTemplate cs) else none
    | none => none
  match afterCompany with
  | some p => .ok p
  | none =>
    if ex (globalTemplatePath trade) then .ok (globalTemplatePath trade)
    else if ex DEFAULT_TEMPLATE_PATH then .ok DEFAULT_TEMPLATE_PATH
    else .error noTemplateDetail

/-- The destination path written by `upload_report_template`
(app_full.py lines 766–772):
`templates/companies/{company_slug}/{trade_slug}_report_template.docx`. -/
def uploadDestPath (company trade : String) : String :=
  COMPANY_TEMPLATE_DIR ++ "/" ++ slugifyCompany company ++ "/" ++
    slugifyTrade trade ++ "_report_template.docx"

/-- The complete list of paths whose existence `get_template_for_trade`
checks for a given trade and company, in check order. -/
def resolverCandidatePaths (trade : String) (company : Option String) : List String :=
  (match company with
   | some c => if c = "" then [] else [companyProjectTemplate (slugifyCompany c)]
   | none => []) ++ [globalTemplatePath trade, DEFAULT_TEMPLATE_PATH]

/-! ### Auxiliary string-inequality lemmas for the path analysis -/

theorem strData_append (a b : String) : (a ++ b).data = a.data ++ b.data := rfl

theorem neq_of_data_neq {a b : String} (h : a.data ≠ b.data) : a ≠ b :=
  fun hab => h (congrArg String.data hab)

theorem upload_ne_companyProject (c t : String) :
    uploadDestPath c t ≠ companyProjectTemplate (slugifyCompany c) := by
  intro h
  have hd := congrArg String.data h
  simp only [uploadDestPath, companyProjectTemplate, COMPANY_TEMPLATE_DIR, TEMPLATE_DIR,
    strData_append, List.append_assoc] at hd
  have hd2 := List.append_cancel_left (List.append_cancel_left
    (List.append_cancel_left (List.append_cancel_left hd)))
  have hlen := congrArg List.length hd2
  simp [List.length_append] at hlen

theorem upload_ne_global (c t t' : String) :
    uploadDestPath c t ≠ globalTemplatePath t' := by
  intro h
  have hd := congrArg String.data h
  simp [uploadDestPath, globalTemplatePath, COMPANY_TEMPLATE_DIR, GLOBAL_TEMPLATE_DIR,
    TEMPLATE_DIR, strData_append, List.append_assoc, List.cons_append] at hd

theorem upload_ne_default (c t : String) :
    uploadDestPath c t ≠ DEFAULT_TEMPLATE_PATH := by
  intro h
  have hd := congrArg String.data h
  simp [uploadDestPath, DEFAULT_TEMPLATE_PATH, COMPANY_TEMPLATE_DIR,
    TEMPLATE_DIR, strData_append, List.append_assoc, List.cons_append] at hd

/-- C1: The path written by the template-upload endpoint is never one of the
paths the resolver checks for the same company and trade: the two share the
slug normalization, but the upload writes
`companies/<company>/<trade>_report_template.docx` while the resolver only
checks `companies/<company>/Project/report.docx`, the global per-trade path
and the default — so a just-uploaded tenant template is never found.  The
closed conjuncts evaluate both sides at company "Acme Steel Inspections",
trade "welding". -/
theorem c1_upload_path_never_checked_by_resolver :
    (∀ company trade : String,
      uploadDestPath company trade ∉ resolverCandidatePaths trade (some company)) ∧
    uploadDestPath "Acme Steel Inspections" "welding" =
      "templates/companies/acme_steel_inspections/welding_report_template.docx" ∧
    resolverCandidatePaths "welding" (some "Acme Steel Inspections") =
      ["templates/companies/acme_steel_inspections/Project/report.docx",
       "templates/global/welding_report_template.docx",
       "templates/default_report_template.docx"] := by
  refine ⟨fun company trade => ?_, by decide, by decide⟩
  intro hmem
  simp only [resolverCandidatePaths] at hmem
  by_cases hc : company = ""
  · subst hc
    simp [List.mem_append, List.mem_cons] at hmem
    rcases hmem with h | h
    · exact upload_ne_global "" trade trade h
    · exact upload_ne_default "" trade h
  · simp [hc, List.mem_append, List.mem_cons] at hmem
    rcases hmem with h | h | h
    · exact upload_ne_companyProject company trade h
    · exact upload_ne_global company trade trade h
    · exact upload_ne_default company trade h

/-- C2: template resolution is deterministic with first-match-wins priority:
with a tenant (non-empty company) the tenant master template is returned
whenever it exists, regardless of the global or default templates; otherwise
the global per-trade template when it exists; otherwise the default. -/
theorem c2_resolution_priority (ex : String → Bool) (trade company : String)
    (hc : company ≠ "") :
    (ex (companyProjectTemplate (slugifyCompany company)) = true →
      getTemplateForTrade ex trade (some company) =
        .ok (companyProjectTemplate (slugifyCompany company))) ∧
    (ex (companyProjectTemplate (slugifyCompany company)) = false →
      ex (globalTemplatePath trade) = true →
      getTemplateForTrade ex trade (some company) = .ok (globalTemplatePath trade)) ∧
    (ex (companyProjectTemplate (slugifyCompany company)) = false →
      ex (globalTemplatePath trade) = false →
      ex DEFAULT_TEMPLATE_PATH = true →
      getTemplateForTrade ex trade (some company) = .ok DEFAULT_TEMPLATE_PATH) := by
  refine ⟨fun h1 => ?_, fun h1 h2 => ?_, fun h1 h2 h3 => ?_⟩ <;>
    simp [getTemplateForTrade, hc, h1] <;> simp_all

/-- Witness for C2 at a concrete tenant, trade and filesystem. -/
theorem c2_resolution_priority_witness :
    getTemplateForTrade (fun _ => true) "welding" (some "Acme") =
      .ok (companyProjectTemplate (slugifyCompany "Acme")) :=
  (c2_resolution_priority (fun _ => true) "welding" "Acme" (by decide)).1 rfl

/-- C7: when none of the three templates exist, resolution fails, and the
error message names `default_report_template.docx` (the expected default
template an operator can add). -/
theorem c7_no_template_error (ex : String → Bool) (trade : String) (company : Option String)
    (h1 : ∀ c, company = some c → ex (companyProjectTemplate (slugifyCompany c)) = false)
    (h2 : ex (globalTemplatePath trade) = false)
    (h3 : ex DEFAULT_TEMPLATE_PATH = false) :
    getTemplateForTrade ex trade company = .error noTemplateDetail ∧
    containsStr "default_report_template.docx" noTemplateDetail = true := by
  refine ⟨?_, by decide⟩
  cases company with
  | none => simp [getTemplateForTrade, h2, h3]
  | some c =>
    by_cases hc : c = ""
    · simp [getTemplateForTrade, hc, h2, h3]
    · simp [getTemplateForTrade, hc, h1 c rfl, h2, h3]

/-- Witness for C7: trade "X", no tenant, an empty filesystem. -/
theorem c7_no_template_error_witness :
    getTemplateForTrade (fun _ => false) "X" none = .error noTemplateDetail ∧
    containsStr "default_report_template.docx" noTemplateDetail = true :=
  c7_no_template_error (fun _ => false) "X" none (fun c h => by cases h) rfl rfl

/-! ## Document model

A `python-docx` document body is a sequence of blocks: paragraphs (lists of
runs, each run a piece of text), tables, explicit page breaks (an empty
paragraph carrying a break run) and inline pictures (a paragraph whose run
holds an image; we record the image bytes). -/

structure Para where
  runs : List String
deriving DecidableEq, Repr

structure Cell where
  paras : List Para
deriving DecidableEq, Repr

structure Row where
  cells : List Cell
deriving DecidableEq, Repr

/-- `cols` models `len(table.columns)`: the number of cells `add_row`
creates. -/
structure Table where
  cols : Nat
  rows : List Row
deriving DecidableEq, Repr

inductive Block where
  | par (p : Para)
  | tbl (t : Table)
  | pageBreak
  | pic (bytes : List Nat)
deriving DecidableEq, Repr

structure Doc where
  body : List Block
deriving DecidableEq, Repr

/-- `paragraph.text`: the concatenation of its runs' texts. -/
def paraText (p : Para) : String := String.join p.runs

/-- `cell.text`: the cell's paragraph texts joined by newlines. -/
def cellText (c : Cell) : String := String.intercalate "\n" (c.paras.map paraText)

/-- `doc.tables`: the top-level tables, in body order. -/
def docTables (d : Doc) : List Table :=
  d.body.filterMap fun b => match b with | .tbl t => some t | _ => none

/-! ## `fill_findings_table` (app_full.py lines 277–312), typed findings -/

/-- One detailed finding, with the five string fields the code reads. -/
structure Finding where
  item : String
  observation : String
  codeOrDetailRef : String
  status : String
  remarks : String
deriving DecidableEq, Repr

/-- The positional row values (app_full.py lines 303–309). -/
def findingValues (f : Finding) : List String :=
  [f.item, f.observation, f.codeOrDetailRef, f.status, f.remarks]

/-- Does a table match the findings-table heuristic?  Its first row's cell
texts joined by spaces, lower-cased, must contain both "item" and
"observation" (lines 286–291); a table with no rows never matches. -/
def isFindingsTable (t : Table) : Bool :=
  match t.rows with
  | [] => false
  | h :: _ =>
    let hdr := lowerStr (String.intercalate " " (h.cells.map cellText))
    containsStr "item" hdr && containsStr "observation" hdr

/-- A cell whose text has been assigned: one paragraph with one run. -/
def textCell (s : String) : Cell := ⟨[⟨[s]⟩]⟩

/-- A freshly added, never-assigned cell of a new row. -/
def newCell : Cell := ⟨[⟨[]⟩]⟩

/-- The row `add_row` produces for one finding: `cols` cells, with the five
values written positionally into the cells that exist (`if i < len(row_cells)`,
line 311); a narrower table silently drops the trailing values, a wider one
leaves the extra cells untouched. -/
def findingRow (cols : Nat) (f : Finding) : Row :=
  ⟨(List.range cols).map fun i =>
    if i < 5 then textCell ((findingValues f).getD i "") else newCell⟩

/-- The effect of the clear-and-append on the located findings table: all
rows after the header are removed (lines 297–299), then one row per finding
is appended (lines 301–312). -/
def fillTarget (t : Table) (fs : List Finding) : Table :=
  ⟨t.cols, t.rows.take 1 ++ fs.map (findingRow t.cols)⟩

/-- The body traversal of `fill_findings_table`: only the first matching
table is modified; with no matching table the document is unchanged. -/
def fillBlocks (fs : List Finding) : List Block → List Block
  | [] => []
  | .tbl t :: bs =>
    if isFindingsTable t then .tbl (fillTarget t fs) :: bs else .tbl t :: fillBlocks fs bs
  | b :: bs => b :: fillBlocks fs bs

/-- `fill_findings_table(doc, detailed_findings)`. -/
def fillFindingsTable (d : Doc) (fs : List Finding) : Doc := ⟨fillBlocks fs d.body⟩

/-- The assembly step of `export_report_docx` (lines 910–914): the table
fill runs only when `detailed_findings` is non-empty (its `try/except`
cannot fire for well-typed findings). -/
def exportFillStep (d : Doc) (fs : List Finding) : Doc :=
  if fs.isEmpty then d else fillFindingsTable d fs

/-- The first table matching the findings heuristic, if any. -/
def firstFindingsTable (d : Doc) : Option Table := (docTables d).find? isFindingsTable

theorem isFindingsTable_fillTarget (t : Table) (fs : List Finding)
    (h : isFindingsTable t = true) : isFindingsTable (fillTarget t fs) = true := by
  unfold isFindingsTable at h ⊢
  simp only [fillTarget]
  cases hr : t.rows with
  | nil => rw [hr] at h; simp at h
  | cons hd tl =>
    rw [hr] at h
    simpa using h

theorem fillTarget_rows_length (t : Table) (fs : List Finding)
    (h : isFindingsTable t = true) :
    (fillTarget t fs).rows.length = 1 + fs.length := by
  unfold isFindingsTable at h
  cases hr : t.rows with
  | nil => rw [hr] at h; simp at h
  | cons hd tl =>
    simp [fillTarget, hr]
    omega

/-- The action of `fillBlocks` seen on the table list alone. -/
def fillTables (fs : List Finding) : List Table → List Table
  | [] => []
  | t :: ts => if isFindingsTable t then fillTarget t fs :: ts else t :: fillTables fs ts

theorem docTables_fillFindingsTable (fs : List Finding) (d : Doc) :
    docTables (fillFindingsTable d fs) = fillTables fs (docTables d) := by
  show (fillBlocks fs d.body).filterMap _ = fillTables fs (d.body.filterMap _)
  induction d.body with
  | nil => simp [fillBlocks, fillTables]
  | cons b bs ih =>
    cases b with
    | tbl t =>
      by_cases h : isFindingsTable t = true
      · simp [fillBlocks, h, fillTables]
      · simp [fillBlocks, h, fillTables, ih]
    | par p => simpa [fillBlocks] using ih
    | pageBreak => simpa [fillBlocks] using ih
    | pic bytes => simpa [fillBlocks] using ih

theorem find?_fillTables (fs : List Finding) (ts : List Table) :
    (fillTables fs ts).find? isFindingsTable =
      (ts.find? isFindingsTable).map (fun t => fillTarget t fs) := by
  induction ts with
  | nil => simp [fillTables]
  | cons t ts ih =>
    cases h : isFindingsTable t with
    | true => simp [fillTables, h, List.find?_cons, isFindingsTable_fillTarget t fs h]
    | false => simp [fillTables, h, List.find?_cons, ih]

/-- Amended C3: for every NON-EMPTY list of findings, when the document
contains a findings table (first table whose first-row text contains "item"
and "observation" case-insensitively), the assembly fill step leaves that
table with exactly one header row plus one data row per finding, in finding
order, the five values written positionally.  (For an empty findings list
`export_report_docx` skips `fill_findings_table` entirely, so rows the
template shipped with survive: see the counterexample.) -/
theorem c3_fill_step_rows_amended (d : Doc) (fs : List Finding) (t : Table)
    (hfs : fs ≠ []) (ht : firstFindingsTable d = some t) :
    firstFindingsTable (exportFillStep d fs) = some (fillTarget t fs) ∧
    (fillTarget t fs).rows.length = 1 + fs.length ∧
    (fillTarget t fs).rows.drop 1 = fs.map (findingRow t.cols) := by
  have hmatch : isFindingsTable t = true := List.find?_some ht
  have hstep : exportFillStep d fs = fillFindingsTable d fs := by
    simp [exportFillStep, List.isEmpty_iff, hfs]
  refine ⟨?_, fillTarget_rows_length t fs hmatch, ?_⟩
  case refine_2 =>
    unfold isFindingsTable at hmatch
    cases hr : t.rows with
    | nil => rw [hr] at hmatch; simp at hmatch
    | cons hd tl => simp [fillTarget, hr]
  rw [hstep]
  unfold firstFindingsTable
  rw [docTables_fillFindingsTable, find?_fillTables]
  unfold firstFindingsTable at ht
  rw [ht]
  rfl

/-- Witness for the amended C3: a header-only findings table and 20
findings give exactly 21 rows. -/
theorem c3_fill_step_rows_amended_witness :
    firstFindingsTable
        (exportFillStep
          (Doc.mk [Block.tbl ⟨5, [⟨[textCell "Item", textCell "Observation",
            textCell "Code/Detail", textCell "Status", textCell "Remarks"]⟩]⟩])
          (List.replicate 20 ⟨"W1", "ok", "", "ACCEPTED", ""⟩)) =
      some (fillTarget
        ⟨5, [⟨[textCell "Item", textCell "Observation", textCell "Code/Detail",
          textCell "Status", textCell "Remarks"]⟩]⟩
        (List.replicate 20 ⟨"W1", "ok", "", "ACCEPTED", ""⟩)) ∧
    (fillTarget
        ⟨5, [⟨[textCell "Item", textCell "Observation", textCell "Code/Detail",
          textCell "Status", textCell "Remarks"]⟩]⟩
        (List.replicate 20 ⟨"W1", "ok", "", "ACCEPTED", ""⟩)).rows.length = 1 + 20 ∧
    (fillTarget
        ⟨5, [⟨[textCell "Item", textCell "Observation", textCell "Code/Detail",
          textCell "Status", textCell "Remarks"]⟩]⟩
        (List.replicate 20 ⟨"W1", "ok", "", "ACCEPTED", ""⟩)).rows.drop 1 =
      (List.replicate 20 (⟨"W1", "ok", "", "ACCEPTED", ""⟩ : Finding)).map (findingRow 5) :=
  c3_fill_step_rows_amended _ _ _ (by decide) (by decide)

/-- Counterexample to C3 as stated: with the EMPTY findings list and a
findings table shipped with a header plus two stale data rows, the assembly
step leaves all 3 rows in place (the claim demands exactly 1). -/
theorem c3_empty_findings_counterexample :
    (firstFindingsTable
        (exportFillStep
          (Doc.mk [Block.tbl ⟨5, [⟨[textCell "Item", textCell "Observation"]⟩,
            ⟨[textCell "stale1"]⟩, ⟨[textCell "stale2"]⟩]⟩])
          ([] : List Finding))).map (fun t => t.rows.length) = some 3 := by
  decide

/-! ## Typed report record and the derived-field steps of `export_report_docx`

The record is a JSON object; this is its well-typed view.  Scalar fields
live in `scalar : String → String` (`""` also models an absent field, as
`rd.get(k, "")` returns `""` then); the `deficiencies` and `observations`
fields are `Option` so that an absent field (`rd.get(...) is None`) is
distinguished from a present empty list. -/

structure Photo where
  title : String
  note : String
deriving DecidableEq, Repr

structure Deficiency where
  no : String
  text : String
deriving DecidableEq, Repr

structure PrevDef where
  no : String
  resolution : String
deriving DecidableEq, Repr

structure Observation where
  generalLocation : String
  specificLocation : String
  systemOrElement : String
  su : String
  remarks : String
deriving DecidableEq, Repr

structure ReportData where
  scalar : String → String
  detailedFindings : List Finding
  photos : List Photo
  deficiencies : Option (List Deficiency)
  prevDefsResolved : List PrevDef
  observations : Option (List Observation)

/-- One iteration of the deficiency-derivation loop (app_full.py lines
808–816): `status = (df.get("status") or "").upper()`; when `status` is
truthy and not "ACCEPTED", append an entry numbered `str(len(defs) + 1)`
whose text is `observation or item`. -/
def deficiencyStep (defs : List Deficiency) (f : Finding) : List Deficiency :=
  let status := upperStr f.status
  if status ≠ "" && status ≠ "ACCEPTED" then
    defs ++ [⟨toString (defs.length + 1),
              if f.observation ≠ "" then f.observation else f.item⟩]
  else defs

/-- The whole deficiency-derivation loop (app_full.py lines 806–816). -/
def deriveDefs (fs : List Finding) : List Deficiency :=
  fs.foldl deficiencyStep []

/-- `defs = rd.get("deficiencies"); if defs is None: ...derive...;
rd["deficiencies"] = defs` (lines 805–817): the derivation runs only when
the field is absent. -/
def defsStep (rd : ReportData) : ReportData :=
  match rd.deficiencies with
  | none => { rd with deficiencies := some (deriveDefs rd.detailedFindings) }
  | some _ => rd

/-- `if not rd.get("deficiencies_summary"): ...` (lines 819–823); after
`defsStep` the local `defs` variable equals the stored field. -/
def summaryStep (rd : ReportData) : ReportData :=
  if rd.scalar "deficiencies_summary" ≠ "" then rd
  else
    { rd with scalar := fun k =>
        if k = "deficiencies_summary" then
          if (rd.deficiencies.getD []).isEmpty then "No deficiencies noted"
          else "Deficiencies noted"
        else rd.scalar k }

/-- One derived observation row (lines 830–838). -/
def deriveObs (rd : ReportData) : List Observation :=
  rd.detailedFindings.map fun f =>
    ⟨rd.scalar "area_inspected", f.item, f.observation, upperStr f.status, f.remarks⟩

/-- `obs_list = rd.get("observations"); if obs_list is None or
len(obs_list) == 0: ...derive...; rd["observations"] = obs_list`
(lines 826–841): the derivation runs when the field is absent OR empty. -/
def obsStep (rd : ReportData) : ReportData :=
  match rd.observations with
  | none => { rd with observations := some (deriveObs rd) }
  | some l =>
    if l.isEmpty then { rd with observations := some (deriveObs rd) } else rd

/-- The whole derived-field augmentation, in program order. -/
def augment (rd : ReportData) : ReportData := obsStep (summaryStep (defsStep rd))

theorem defsStep_scalar (rd : ReportData) : (defsStep rd).scalar = rd.scalar := by
  unfold defsStep; cases rd.deficiencies <;> rfl

theorem defsStep_findings (rd : ReportData) :
    (defsStep rd).detailedFindings = rd.detailedFindings := by
  unfold defsStep; cases rd.deficiencies <;> rfl

theorem defsStep_observations (rd : ReportData) :
    (defsStep rd).observations = rd.observations := by
  unfold defsStep; cases rd.deficiencies <;> rfl

theorem defsStep_deficiencies (rd : ReportData) :
    (defsStep rd).deficiencies =
      some (rd.deficiencies.getD (deriveDefs rd.detailedFindings)) := by
  unfold defsStep
  cases h : rd.deficiencies with
  | none => rfl
  | some l => simp [h]

theorem summaryStep_deficiencies (rd : ReportData) :
    (summaryStep rd).deficiencies = rd.deficiencies := by
  unfold summaryStep; split <;> rfl

theorem summaryStep_findings (rd : ReportData) :
    (summaryStep rd).detailedFindings = rd.detailedFindings := by
  unfold summaryStep; split <;> rfl

theorem summaryStep_observations (rd : ReportData) :
    (summaryStep rd).observations = rd.observations := by
  unfold summaryStep; split <;> rfl

theorem summaryStep_area (rd : ReportData) :
    (summaryStep rd).scalar "area_inspected" = rd.scalar "area_inspected" := by
  unfold summaryStep; split
  · rfl
  · simp

theorem obsStep_deficiencies (rd : ReportData) :
    (obsStep rd).deficiencies = rd.deficiencies := by
  unfold obsStep
  cases rd.observations with
  | none => rfl
  | some l => by_cases hl : l.isEmpty <;> simp [hl]

theorem deriveObs_summary_defs (rd : ReportData) :
    deriveObs (summaryStep (defsStep rd)) = deriveObs rd := by
  unfold deriveObs
  rw [summaryStep_findings, summaryStep_area, defsStep_findings, defsStep_scalar]

/-- Amended C5: the `deficiencies` derivation runs exactly when the field is
ABSENT (a present empty list is kept as-is), while the `observations`
derivation runs when the field is absent or empty; neither ever overrides a
caller-supplied non-empty sequence. -/
theorem c5_derivation_trigger_amended (rd : ReportData) :
    (augment rd).deficiencies =
      some (rd.deficiencies.getD (deriveDefs rd.detailedFindings)) ∧
    (augment rd).observations =
      some (if (rd.observations.getD []).isEmpty then deriveObs rd
            else rd.observations.getD []) := by
  constructor
  · rw [augment, obsStep_deficiencies, summaryStep_deficiencies, defsStep_deficiencies]
  · rw [augment]
    unfold obsStep
    rw [summaryStep_observations, defsStep_observations, deriveObs_summary_defs]
    cases h : rd.observations with
    | none => simp [h]
    | some l =>
      cases hl : l.isEmpty with
      | true =>
        have hnil : l = [] := by simpa [List.isEmpty_iff] using hl
        simp [h, hnil]
      | false =>
        simp [h, hl, summaryStep_observations, defsStep_observations]

/-- Counterexample to C5 as stated: a caller-supplied EMPTY `deficiencies`
list together with a non-ACCEPTED finding.  The claim demands that the
derived default (here one entry) be computed and stored; the code keeps the
empty list because it only checks `is None`. -/
theorem c5_empty_deficiencies_counterexample :
    (augment
        { scalar := fun _ => "",
          detailedFindings := [⟨"Weld A", "Crack found", "", "REJECTED", ""⟩],
          photos := [], deficiencies := some [], prevDefsResolved := [],
          observations := none }).deficiencies = some [] ∧
    deriveDefs [⟨"Weld A", "Crack found", "", "REJECTED", ""⟩] =
      [⟨"1", "Crack found"⟩] := by
  constructor
  · rfl
  · decide

/-- The specification's wording for the derived deficiency list: the
qualifying findings (upper-cased status non-empty and not "ACCEPTED"), in
original order, numbered consecutively starting at `n`, each carrying its
observation text or, if that is empty, its item. -/
def numberDeficienciesFrom (n : Nat) : List Finding → List Deficiency
  | [] => []
  | f :: t =>
    ⟨toString n, if f.observation ≠ "" then f.observation else f.item⟩ ::
      numberDeficienciesFrom (n + 1) t

/-- Is a finding counted as a deficiency? -/
def isDeficientStatus (f : Finding) : Bool :=
  upperStr f.status ≠ "" && upperStr f.status ≠ "ACCEPTED"

theorem deficiencyStep_eq (defs : List Deficiency) (f : Finding) :
    deficiencyStep defs f =
      if isDeficientStatus f then
        defs ++ [⟨toString (defs.length + 1),
                  if f.observation ≠ "" then f.observation else f.item⟩]
      else defs := rfl

theorem deriveDefs_foldl_general (fs : List Finding) :
    ∀ acc : List Deficiency,
      fs.foldl deficiencyStep acc =
        acc ++ numberDeficienciesFrom (acc.length + 1) (fs.filter isDeficientStatus) := by
  induction fs with
  | nil => intro acc; simp [numberDeficienciesFrom]
  | cons f t ih =>
    intro acc
    rw [List.foldl_cons, deficiencyStep_eq, List.filter_cons]
    cases h : isDeficientStatus f with
    | true =>
      simp only [h, if_pos]
      rw [ih]
      simp [numberDeficienciesFrom, List.append_assoc]
    | false =>
      simp only [h, if_neg, Bool.false_eq_true, not_false_iff, ite_false]
      exact ih acc

/-- C6: the derived deficiency list contains exactly one entry per finding
whose upper-cased status is non-empty and different from "ACCEPTED",
numbered 1-based in original finding order, with text
observation-or-item; in particular the 4-finding example with statuses
[ACCEPTED, REJECTED, OPEN, ACCEPTED] yields exactly the 2 entries numbered
1 and 2, sourced from the 2nd and 3rd findings. -/
theorem c6_derived_deficiencies :
    (∀ fs : List Finding,
      deriveDefs fs = numberDeficienciesFrom 1 (fs.filter isDeficientStatus)) ∧
    deriveDefs
        [⟨"item1", "obs1", "", "ACCEPTED", ""⟩,
         ⟨"item2", "obs2", "", "REJECTED", ""⟩,
         ⟨"item3", "obs3", "", "OPEN", ""⟩,
         ⟨"item4", "obs4", "", "ACCEPTED", ""⟩] =
      [⟨"1", "obs2"⟩, ⟨"2", "obs3"⟩] := by
  constructor
  · intro fs
    have := deriveDefs_foldl_general fs []
    simpa [deriveDefs] using this
  · decide

/-! ## `replace_placeholders_everywhere` (app_full.py lines 248–274) -/

/-- One `for old, new in replacements.items()` iteration of
`_replace_in_paragraph`: replace only when the token occurs, recording that
the paragraph changed. -/
def replaceStep (acc : String × Bool) (kv : String × String) : String × Bool :=
  if containsStr kv.1 acc.1 then (strReplace acc.1 kv.1 kv.2, true) else acc

/-- `_replace_in_paragraph` (lines 253–265): skip empty paragraphs; fold the
replacements over the concatenated run text; on change, put the whole text
in the first run and blank the rest. -/
def replaceInParagraph (reps : List (String × String)) (p : Para) : Para :=
  if paraText p = "" then p
  else
    let res := reps.foldl replaceStep (paraText p, false)
    if res.2 then
      match p.runs with
      | [] => p
      | _ :: rest => ⟨res.1 :: rest.map (fun _ => "")⟩
    else p

def replaceInCell (reps : List (String × String)) (c : Cell) : Cell :=
  ⟨c.paras.map (replaceInParagraph reps)⟩

def replaceInTable (reps : List (String × String)) (t : Table) : Table :=
  ⟨t.cols, t.rows.map fun r => ⟨r.cells.map (replaceInCell reps)⟩⟩

/-- `replace_placeholders_everywhere(doc, replacements)`: every top-level
paragraph and every table cell paragraph. -/
def replacePlaceholdersEverywhere (reps : List (String × String)) (d : Doc) : Doc :=
  ⟨d.body.map fun b =>
    match b with
    | .par p => .par (replaceInParagraph reps p)
    | .tbl t => .tbl (replaceInTable reps t)
    | b => b⟩

/-! ## The replacements mapping of `export_report_docx` (lines 843–906),
for a well-typed record.  The pairs are listed in Python dict insertion
order (all keys distinct). -/

def scalarTokenPairs : List (String × String) :=
  [("{{PROJECT_NAME}}", "project_name"),
   ("{{INSPECTION_DATE}}", "inspection_date"),
   ("{{TRADE}}", "trade"),
   ("{{AREA_INSPECTED}}", "area_inspected"),
   ("{{REFERENCE_DETAILS}}", "reference_details"),
   ("{{OVERALL_SUMMARY}}", "overall_summary"),
   ("{{CONCLUSION}}", "conclusion"),
   ("{{PROJECT_NUMBER}}", "project_number"),
   ("{{CLIENT_NAME}}", "client_name"),
   ("{{BIS_NUMBER}}", "bis_number"),
   ("{{GC_CM}}", "gc_cm"),
   ("{{ARCHITECT}}", "architect"),
   ("{{ENGINEER}}", "engineer"),
   ("{{TIME_IN}}", "time_in"),
   ("{{TIME_OUT}}", "time_out"),
   ("{{REPORT_NUMBER}}", "report_number"),
   ("{{INSPECTORS}}", "inspectors"),
   ("{{REPORTED_TO}}", "reported_to"),
   ("{{INSPECTIONS_LIST}}", "inspections_list"),
   ("{{PERSONS_PRESENT}}", "persons_present"),
   ("{{SITE_REMARKS}}", "site_remarks"),
   ("{{DEFICIENCIES_SUMMARY}}", "deficiencies_summary"),
   ("{{REINSPECTION_REQUIRED}}", "reinspection_required"),
   ("{{TOTAL_ATTACHMENTS}}", "total_attachments"),
   ("{{ATTACHMENTS_LIST}}", "attachments_list"),
   ("{{OTHER_NOTES}}", "other_notes"),
   ("{{REFERENCE_DRAWING}}", "reference_drawing"),
   ("{{REFERENCE_DETAIL}}", "reference_detail")]

/-- `PHOTO_<1..3>_{TITLE,NOTE}` (lines 878–882): the element at the 1-based
index when the sequence is long enough, else the empty dict whose gets
default to `""`. -/
def photoTokenRows (photos : List Photo) : List (String × String) :=
  ((List.range 3).map fun i =>
    let p := photos.getD i ⟨"", ""⟩
    [("\x7b\x7bPHOTO_" ++ toString (i + 1) ++ "_TITLE\x7d\x7d", p.title),
     ("\x7b\x7bPHOTO_" ++ toString (i + 1) ++ "_NOTE\x7d\x7d", p.note)]).join

/-- `DEF_<1..5>_{NO,TEXT}` (lines 884–889). -/
def defTokenRows (defs : List Deficiency) : List (String × String) :=
  ((List.range 5).map fun i =>
    let d := defs.getD i ⟨"", ""⟩
    [("\x7b\x7bDEF_" ++ toString (i + 1) ++ "_NO\x7d\x7d", d.no),
     ("\x7b\x7bDEF_" ++ toString (i + 1) ++ "_TEXT\x7d\x7d", d.text)]).join

/-- `PREV_DEF_<1..3>_{NO,RESOLUTION}` (lines 891–896). -/
def prevDefTokenRows (prevs : List PrevDef) : List (String × String) :=
  ((List.range 3).map fun i =>
    let d := prevs.getD i ⟨"", ""⟩
    [("\x7b\x7bPREV_DEF_" ++ toString (i + 1) ++ "_NO\x7d\x7d", d.no),
     ("\x7b\x7bPREV_DEF_" ++ toString (i + 1) ++ "_RESOLUTION\x7d\x7d", d.resolution)]).join

/-- `OBS_<1..15>_{GENERAL,SPECIFIC,SYSTEM,SU,REMARKS}` (lines 898–906). -/
def obsTokenRows (obs : List Observation) : List (String × String) :=
  ((List.range 15).map fun i =>
    let o := obs.getD i ⟨"", "", "", "", ""⟩
    [("\x7b\x7bOBS_" ++ toString (i + 1) ++ "_GENERAL\x7d\x7d", o.generalLocation),
     ("\x7b\x7bOBS_" ++ toString (i + 1) ++ "_SPECIFIC\x7d\x7d", o.specificLocation),
     ("\x7b\x7bOBS_" ++ toString (i + 1) ++ "_SYSTEM\x7d\x7d", o.systemOrElement),
     ("\x7b\x7bOBS_" ++ toString (i + 1) ++ "_SU\x7d\x7d", o.su),
     ("\x7b\x7bOBS_" ++ toString (i + 1) ++ "_REMARKS\x7d\x7d", o.remarks)]).join

/-- The full replacements mapping built by `export_report_docx` from the
(already augmented) record. -/
def buildReplacements (rd : ReportData) : List (String × String) :=
  (scalarTokenPairs.map fun p => (p.1, rd.scalar p.2)) ++
  photoTokenRows rd.photos ++
  defTokenRows (rd.deficiencies.getD []) ++
  prevDefTokenRows rd.prevDefsResolved ++
  obsTokenRows (rd.observations.getD [])

/-- The substitution pass of the assembly: augmentation, then
`replace_placeholders_everywhere` with the record's replacements. -/
def substitutionPass (rd : ReportData) (d : Doc) : Doc :=
  replacePlaceholdersEverywhere (buildReplacements (augment rd)) d

/-- All text-bearing paragraphs of a block (top level plus table cells). -/
def blockParas : Block → List Para
  | .par p => [p]
  | .tbl t => (t.rows.map fun r => (r.cells.map Cell.paras).join).join
  | _ => []

def docAllParas (d : Doc) : List Para := (d.body.map blockParas).join

/-- No replacement key still occurs in any paragraph of the document. -/
def noTokenRemains (reps : List (String × String)) (d : Doc) : Bool :=
  (docAllParas d).all fun p => reps.all fun kv => !(containsStr kv.1 (paraText p))

theorem foldl_replaceStep_id (reps : List (String × String)) (t : String) (b : Bool)
    (h : ∀ kv ∈ reps, containsStr kv.1 t = false) :
    reps.foldl replaceStep (t, b) = (t, b) := by
  induction reps with
  | nil => rfl
  | cons kv rest ih =>
    rw [List.foldl_cons]
    have h1 : replaceStep (t, b) kv = (t, b) := by
      simp [replaceStep, h kv (by simp)]
    rw [h1]
    exact ih fun kv hkv => h kv (by simp [hkv])

theorem replaceInParagraph_id (reps : List (String × String)) (p : Para)
    (h : ∀ kv ∈ reps, containsStr kv.1 (paraText p) = false) :
    replaceInParagraph reps p = p := by
  unfold replaceInParagraph
  by_cases hp : paraText p = ""
  · simp [hp]
  · simp [hp, foldl_replaceStep_id reps (paraText p) false h]

theorem map_self_of_mem {α : Type} (l : List α) (f : α → α) (h : ∀ a ∈ l, f a = a) :
    l.map f = l := by
  induction l with
  | nil => rfl
  | cons a t ih =>
    rw [List.map_cons, h a (by simp), ih fun x hx => h x (by simp [hx])]

theorem mem_blockParas_tbl {p : Para} {t : Table} {r : Row} {c : Cell}
    (hr : r ∈ t.rows) (hc : c ∈ r.cells) (hp : p ∈ c.paras) :
    p ∈ blockParas (.tbl t) := by
  simp only [blockParas, List.mem_join, List.mem_map]
  refine ⟨(r.cells.map Cell.paras).join, ⟨r, hr, rfl⟩, ?_⟩
  simp only [List.mem_join, List.mem_map]
  exact ⟨c.paras, ⟨c, hc, rfl⟩, hp⟩

theorem replaceInCell_id (reps : List (String × String)) (c : Cell)
    (h : ∀ p ∈ c.paras, ∀ kv ∈ reps, containsStr kv.1 (paraText p) = false) :
    replaceInCell reps c = c := by
  obtain ⟨paras⟩ := c
  show Cell.mk (paras.map _) = Cell.mk paras
  congr 1
  exact map_self_of_mem _ _ fun p hp => replaceInParagraph_id reps p (h p hp)

theorem replaceInTable_id (reps : List (String × String)) (t : Table)
    (h : ∀ r ∈ t.rows, ∀ c ∈ r.cells, ∀ p ∈ c.paras,
      ∀ kv ∈ reps, containsStr kv.1 (paraText p) = false) :
    replaceInTable reps t = t := by
  obtain ⟨cols, rows⟩ := t
  show Table.mk cols (rows.map _) = Table.mk cols rows
  congr 1
  apply map_self_of_mem
  intro r hr
  obtain ⟨cells⟩ := r
  show Row.mk (cells.map _) = Row.mk cells
  congr 1
  apply map_self_of_mem
  intro c hc
  exact replaceInCell_id reps c fun p hp kv hkv => h ⟨cells⟩ hr c hc p hp kv hkv

theorem replacePlaceholdersEverywhere_id (reps : List (String × String)) (d : Doc)
    (h : ∀ p ∈ docAllParas d, ∀ kv ∈ reps, containsStr kv.1 (paraText p) = false) :
    replacePlaceholdersEverywhere reps d = d := by
  obtain ⟨body⟩ := d
  show Doc.mk (body.map _) = Doc.mk body
  congr 1
  apply map_self_of_mem
  intro b hb
  have hblock : ∀ p ∈ blockParas b, ∀ kv ∈ reps,
      containsStr kv.1 (paraText p) = false := by
    intro p hp kv hkv
    apply h p _ kv hkv
    unfold docAllParas
    simp only [List.mem_join, List.mem_map]
    exact ⟨blockParas b, ⟨b, hb, rfl⟩, hp⟩
  cases b with
  | par p =>
    show Block.par (replaceInParagraph reps p) = Block.par p
    rw [replaceInParagraph_id reps p (hblock p (by simp [blockParas]))]
  | tbl t =>
    show Block.tbl (replaceInTable reps t) = Block.tbl t
    rw [replaceInTable_id reps t
      (fun r hr c hc p hp kv hkv => hblock p (mem_blockParas_tbl hr hc hp) kv hkv)]
  | pageBreak => rfl
  | pic bytes => rfl

theorem noTokenRemains_spec {reps : List (String × String)} {d : Doc}
    (h : noTokenRemains reps d = true) :
    ∀ p ∈ docAllParas d, ∀ kv ∈ reps, containsStr kv.1 (paraText p) = false := by
  intro p hp kv hkv
  have h1 := (List.all_eq_true.mp h) p hp
  have h2 := (List.all_eq_true.mp h1) kv hkv
  simpa using h2

/-- Amended C8: applying the substitution pass a second time with the same
record is a no-op PROVIDED no replacement token still occurs in the output
of the first pass.  (Without this proviso a record value that itself
contains a catalog token makes the second pass substitute again: see the
counterexample.) -/
theorem c8_substitution_idempotent_amended (rd : ReportData) (d : Doc)
    (h : noTokenRemains (buildReplacements (augment rd)) (substitutionPass rd d) = true) :
    substitutionPass rd (substitutionPass rd d) = substitutionPass rd d := by
  unfold substitutionPass
  exact replacePlaceholdersEverywhere_id _ _ (noTokenRemains_spec h)

/-- Witness for the amended C8: an all-empty record and a one-token
template paragraph. -/
theorem c8_substitution_idempotent_amended_witness :
    substitutionPass
        ⟨fun _ => "", [], [], none, [], none⟩
        (substitutionPass ⟨fun _ => "", [], [], none, [], none⟩
          ⟨[Block.par ⟨["{{TRADE}}"]⟩]⟩) =
      substitutionPass ⟨fun _ => "", [], [], none, [], none⟩
        ⟨[Block.par ⟨["{{TRADE}}"]⟩]⟩ :=
  c8_substitution_idempotent_amended ⟨fun _ => "", [], [], none, [], none⟩
    ⟨[Block.par ⟨["{{TRADE}}"]⟩]⟩ (by decide)

/-- Counterexample to C8 as stated: a record whose `trade` value is itself
the literal token `{{PROJECT_NAME}}`.  The first pass rewrites `{{TRADE}}`
to `{{PROJECT_NAME}}`; the second pass substitutes again, so the text
changes between the first and second pass. -/
theorem c8_substitution_not_idempotent_counterexample :
    substitutionPass
        ⟨fun k => if k = "trade" then "{{PROJECT_NAME}}"
                  else if k = "project_name" then "A" else "",
         [], [], none, [], none⟩
        (substitutionPass
          ⟨fun k => if k = "trade" then "{{PROJECT_NAME}}"
                    else if k = "project_name" then "A" else "",
           [], [], none, [], none⟩
          ⟨[Block.par ⟨["{{TRADE}}"]⟩]⟩) ≠
      substitutionPass
        ⟨fun k => if k = "trade" then "{{PROJECT_NAME}}"
                  else if k = "project_name" then "A" else "",
         [], [], none, [], none⟩
        ⟨[Block.par ⟨["{{TRADE}}"]⟩]⟩ := by
  decide

/-! ## Image embedding (app_full.py lines 916–931)

`base64.b64decode` and the image parsing done by `doc.add_picture` are
library calls outside this repository; they are abstracted by an oracle:
`b64decode` returns `none` when Python would raise `binascii.Error`, and
`addPicture` returns `false` when `add_picture` would raise on bytes that
are not a decodable image. -/

structure ImgOracle where
  b64decode : String → Option (List Nat)
  addPicture : List Nat → Bool

/-- Model of `re.match(r"^data:image/(png|jpeg);base64,(.+)$", s)`,
returning group 2 (the base64 payload).  The payload must be non-empty and
(as `.` does not match newlines) free of newlines. -/
def dataUrlPayload (s : String) : Option String :=
  let p1 := "data:image/png;base64,"
  let p2 := "data:image/jpeg;base64,"
  if subListAt s.data p1.data then
    let rest := String.mk (s.data.drop p1.length)
    if rest ≠ "" && !(containsStr "\n" rest) then some rest else none
  else if subListAt s.data p2.data then
    let rest := String.mk (s.data.drop p2.length)
    if rest ≠ "" && !(containsStr "\n" rest) then some rest else none
  else none

/-- The per-attachment loop (lines 921–931), with `enumerate(·, start=1)`
numbering over the FULL list.  Each iteration sits in its own `try/except`:
a non-matching data URL or a failing base64 decode contributes nothing; a
payload whose bytes `add_picture` rejects contributes only its caption
(written before the picture). -/
def embedLoop (o : ImgOracle) (idx : Nat) : List String → List Block
  | [] => []
  | u :: rest =>
    (match dataUrlPayload u with
     | none => []
     | some payload =>
       match o.b64decode payload with
       | none => []
       | some bytes =>
         Block.par ⟨["Photo " ++ toString idx ++ ":"]⟩ ::
           (if o.addPicture bytes then [Block.pic bytes] else [])) ++
    embedLoop o (idx + 1) rest

/-- The blocks the embedding step appends: nothing when the attachment list
is empty; otherwise a page break, the "Photo Attachments" heading, then the
per-attachment loop (lines 917–931). -/
def embedImages (o : ImgOracle) (urls : List String) : List Block :=
  if urls.isEmpty then []
  else Block.pageBreak :: Block.par ⟨["Photo Attachments"]⟩ :: embedLoop o 1 urls

/-- The embedding step applied to a document. -/
def embedStep (o : ImgOracle) (d : Doc) (urls : List String) : Doc :=
  ⟨d.body ++ embedImages o urls⟩

/-- The pictures embedded in a block list, in order. -/
def picturesOf (bs : List Block) : List (List Nat) :=
  bs.filterMap fun b => match b with | .pic p => some p | _ => none

/-- An attachment entry that contributes no picture: its data URL does not
match, or its payload fails to decode, or its bytes are not a valid image. -/
def entryFails (o : ImgOracle) (u : String) : Prop :=
  dataUrlPayload u = none ∨
  (∃ p, dataUrlPayload u = some p ∧ o.b64decode p = none) ∨
  (∃ p b, dataUrlPayload u = some p ∧ o.b64decode p = some b ∧ o.addPicture b = false)

/-- An attachment entry skipped before its caption is written: its data URL
does not match, or its base64 payload fails to decode. -/
def entrySkipped (o : ImgOracle) (u : String) : Prop :=
  dataUrlPayload u = none ∨
  (∃ p, dataUrlPayload u = some p ∧ o.b64decode p = none)

theorem picturesOf_append (a b : List Block) :
    picturesOf (a ++ b) = picturesOf a ++ picturesOf b := by
  simp [picturesOf]

theorem embedLoop_fails_pictures (o : ImgOracle) (u : String) (idx : Nat)
    (h : entryFails o u) (rest : List String) :
    picturesOf (embedLoop o idx (u :: rest)) = picturesOf (embedLoop o (idx + 1) rest) := by
  rcases h with h | ⟨p, hp, hd⟩ | ⟨p, b, hp, hd, ha⟩
  · simp [embedLoop, h, picturesOf_append]
  · simp [embedLoop, hp, hd, picturesOf_append]
  · simp [embedLoop, hp, hd, ha, picturesOf_append, picturesOf]

/-- C9: with a non-empty attachment list the embedding step appends a page
break and a heading, then for each valid image (in order) a caption
paragraph followed by the decoded picture; a malformed entry is skipped for
that single image without aborting the rest — the list
`[valid, corrupt, valid]` yields exactly the two pictures of entries 1 and
3, and the step is a total function (nothing is raised). -/
theorem c9_embed_skips_malformed (o : ImgOracle) (d : Doc) (u1 u2 u3 p1 b1 p3 b3 : String)
    (hm1 : dataUrlPayload u1 = some p1)
    (hd1 : o.b64decode p1 = some (b1.data.map Char.toNat))
    (ha1 : o.addPicture (b1.data.map Char.toNat) = true)
    (h2 : entryFails o u2)
    (hm3 : dataUrlPayload u3 = some p3)
    (hd3 : o.b64decode p3 = some (b3.data.map Char.toNat))
    (ha3 : o.addPicture (b3.data.map Char.toNat) = true) :
    (embedStep o d [u1, u2, u3]).body =
      d.body ++ Block.pageBreak :: Block.par ⟨["Photo Attachments"]⟩ ::
        embedLoop o 1 [u1, u2, u3] ∧
    picturesOf (embedLoop o 1 [u1, u2, u3]) =
      [b1.data.map Char.toNat, b3.data.map Char.toNat] := by
  constructor
  · simp [embedStep, embedImages]
  · have hcons : ∀ idx rest, picturesOf (embedLoop o idx (u1 :: rest)) =
        b1.data.map Char.toNat :: picturesOf (embedLoop o (idx + 1) rest) := by
      intro idx rest
      simp [embedLoop, hm1, hd1, ha1, picturesOf_append, picturesOf]
    rw [hcons, embedLoop_fails_pictures o u2 2 h2]
    simp [embedLoop, hm3, hd3, ha3, picturesOf_append, picturesOf]

/-- Witness for C9 at a concrete oracle: `AAAA` and `BBBB` decode, `????`
does not, and all decoded bytes are accepted as pictures. -/
theorem c9_embed_skips_malformed_witness :
    (embedStep
        ⟨fun s => if s = "????" then none else some (s.data.map Char.toNat), fun _ => true⟩
        ⟨[]⟩
        ["data:image/png;base64,AAAA", "data:image/png;base64,????",
         "data:image/jpeg;base64,BBBB"]).body =
      (Doc.mk []).body ++ Block.pageBreak :: Block.par ⟨["Photo Attachments"]⟩ ::
        embedLoop
          ⟨fun s => if s = "????" then none else some (s.data.map Char.toNat), fun _ => true⟩ 1
          ["data:image/png;base64,AAAA", "data:image/png;base64,????",
           "data:image/jpeg;base64,BBBB"] ∧
    picturesOf
        (embedLoop
          ⟨fun s => if s = "????" then none else some (s.data.map Char.toNat), fun _ => true⟩ 1
          ["data:image/png;base64,AAAA", "data:image/png;base64,????",
           "data:image/jpeg;base64,BBBB"]) =
      ["AAAA".data.map Char.toNat, "BBBB".data.map Char.toNat] :=
  c9_embed_skips_malformed
    ⟨fun s => if s = "????" then none else some (s.data.map Char.toNat), fun _ => true⟩
    ⟨[]⟩ "data:image/png;base64,AAAA" "data:image/png;base64,????"
    "data:image/jpeg;base64,BBBB" "AAAA" "AAAA" "BBBB" "BBBB"
    (by decide) (by decide) rfl
    (Or.inr (Or.inl ⟨"????", by decide, by decide⟩))
    (by decide) (by decide) rfl

/-- C10: the caption is written before the picture, so an entry whose URL
matches and decodes but whose bytes `add_picture` rejects leaves its
caption with no picture anywhere after it; and captions are numbered by the
entry's 1-based position in the full list, so a skipped entry leaves a gap
(a failing first entry followed by a valid one yields only "Photo 2:"). -/
theorem c10_caption_before_picture_and_gaps (o : ImgOracle)
    (u p b v1 v2 q2 c2 : String)
    (hm : dataUrlPayload u = some p)
    (hd : o.b64decode p = some (b.data.map Char.toNat))
    (ha : o.addPicture (b.data.map Char.toNat) = false)
    (hv1 : entrySkipped o v1)
    (hm2 : dataUrlPayload v2 = some q2)
    (hd2 : o.b64decode q2 = some (c2.data.map Char.toNat))
    (ha2 : o.addPicture (c2.data.map Char.toNat) = true) :
    embedImages o [u] =
      [Block.pageBreak, Block.par ⟨["Photo Attachments"]⟩, Block.par ⟨["Photo 1:"]⟩] ∧
    picturesOf (embedImages o [u]) = [] ∧
    picturesOf (embedLoop o 1 [v1, v2]) = [c2.data.map Char.toNat] ∧
    (embedLoop o 1 [v1, v2]).filterMap
        (fun blk => match blk with | .par pa => some pa | _ => none) =
      [⟨["Photo 2:"]⟩] := by
  have h1 : embedImages o [u] =
      [Block.pageBreak, Block.par ⟨["Photo Attachments"]⟩, Block.par ⟨["Photo 1:"]⟩] := by
    simp [embedImages, embedLoop, hm, hd, ha]
    rfl
  have hfails : entryFails o v1 := by
    rcases hv1 with h | ⟨pp, hp, hdd⟩
    · exact Or.inl h
    · exact Or.inr (Or.inl ⟨pp, hp, hdd⟩)
  refine ⟨h1, by rw [h1]; simp [picturesOf], ?_, ?_⟩
  · rw [embedLoop_fails_pictures o v1 1 hfails]
    simp [embedLoop, hm2, hd2, ha2, picturesOf_append, picturesOf]
  · rcases hv1 with h | ⟨pp, hp, hdd⟩
    · simp [embedLoop, h, hm2, hd2, ha2]
      rfl
    · simp [embedLoop, hp, hdd, hm2, hd2, ha2]
      rfl

/-- Witness for C10 at a concrete oracle rejecting bytes decoded from
`BAD!` and a first entry whose data URL does not match. -/
theorem c10_caption_before_picture_and_gaps_witness :
    embedImages
        ⟨fun s => some (s.data.map Char.toNat),
         fun bs => !(bs == "BAD!".data.map Char.toNat)⟩ ["data:image/png;base64,BAD!"] =
      [Block.pageBreak, Block.par ⟨["Photo Attachments"]⟩, Block.par ⟨["Photo 1:"]⟩] ∧
    picturesOf
        (embedImages
          ⟨fun s => some (s.data.map Char.toNat),
           fun bs => !(bs == "BAD!".data.map Char.toNat)⟩
          ["data:image/png;base64,BAD!"]) = [] ∧
    picturesOf
        (embedLoop
          ⟨fun s => some (s.data.map Char.toNat),
           fun bs => !(bs == "BAD!".data.map Char.toNat)⟩ 1
          ["nonsense", "data:image/jpeg;base64,OK"]) = ["OK".data.map Char.toNat] ∧
    (embedLoop
        ⟨fun s => some (s.data.map Char.toNat),
         fun bs => !(bs == "BAD!".data.map Char.toNat)⟩ 1
        ["nonsense", "data:image/jpeg;base64,OK"]).filterMap
        (fun blk => match blk with | .par pa => some pa | _ => none) =
      [⟨["Photo 2:"]⟩] :=
  c10_caption_before_picture_and_gaps
    ⟨fun s => some (s.data.map Char.toNat), fun bs => !(bs == "BAD!".data.map Char.toNat)⟩
    "data:image/png;base64,BAD!" "BAD!" "BAD!" "nonsense" "data:image/jpeg;base64,OK"
    "OK" "OK"
    (by decide) rfl (by decide)
    (Or.inl (by decide))
    (by decide) rfl (by decide)

/-! ## Dynamically-typed record values (`PyVal`) and the full
record-processing pipeline of `export_report_docx` after the template
is loaded (app_full.py lines 790–944)

`report_data` is a JSON object whose values are arbitrary; `PyVal` models
the value universe the endpoint can receive, and `Except String` carries
the `AttributeError` / `TypeError` / `KeyError` Python raises on a
wrong-typed value.  The record itself is a dict (pydantic guarantees
`Dict[str, Any]`), modelled as a finite map `String → Option PyVal`. -/

inductive PyVal where
  | none : PyVal
  | str : String → PyVal
  | int : Int → PyVal
  | list : List PyVal → PyVal
  | dict : List (String × PyVal) → PyVal

/-- Python truthiness for the modelled values. -/
def truthy : PyVal → Bool
  | .none => false
  | .str s => s ≠ ""
  | .int n => n ≠ 0
  | .list l => !l.isEmpty
  | .dict l => !l.isEmpty

/-- Python `a or b`. -/
def pyOr (a b : PyVal) : PyVal := if truthy a then a else b

/-- Python `v.get(k, dflt)`: only dicts have `.get`; everything else raises
`AttributeError`. -/
def pyDictGet (v : PyVal) (k : String) (dflt : PyVal) : Except String PyVal :=
  match v with
  | .dict kvs => .ok ((kvs.lookup k).getD dflt)
  | _ => .error "AttributeError: get"

/-- Python `v.upper()`: strings only. -/
def pyUpper : PyVal → Except String String
  | .str s => .ok (upperStr s)
  | _ => .error "AttributeError: upper"

/-- Python `len(v)`: strings, lists and dicts. -/
def pyLen : PyVal → Except String Nat
  | .str s => .ok s.length
  | .list l => .ok l.length
  | .dict l => .ok l.length
  | _ => .error "TypeError: len"

/-- Python `v[i]` for a non-negative index: list element, one-character
string, `KeyError` for a dict (its keys are strings here), `TypeError`
otherwise. -/
def pyIndex (v : PyVal) (i : Nat) : Except String PyVal :=
  match v with
  | .list l =>
    match l.get? i with
    | some x => .ok x
    | Option.none => .error "IndexError: list"
  | .str s =>
    match s.data.get? i with
    | some c => .ok (.str (String.mk [c]))
    | Option.none => .error "IndexError: str"
  | .dict _ => .error "KeyError"
  | _ => .error "TypeError: not subscriptable"

/-- Python `for x in v`: list elements, characters of a string, keys of a
dict; `TypeError` otherwise. -/
def pyIter : PyVal → Except String (List PyVal)
  | .list l => .ok l
  | .str s => .ok (s.data.map fun c => .str (String.mk [c]))
  | .dict kvs => .ok (kvs.map fun kv => .str kv.1)
  | _ => .error "TypeError: not iterable"

/-- The record dict: key to value, `Option.none` when the key is absent. -/
def RDict : Type := String → Option PyVal

/-- `rd.get(k, dflt)` (total: the record itself is a dict). -/
def rdGet (rd : RDict) (k : String) (dflt : PyVal) : PyVal := (rd k).getD dflt

/-- `rd[k] = v`. -/
def rdSet (rd : RDict) (k : String) (v : PyVal) : RDict :=
  fun k' => if k' = k then some v else rd k'

/-- `mapM` over `Except String`, written out so its equations are plain. -/
def exceptMap {α β : Type} (f : α → Except String β) : List α → Except String (List β)
  | [] => .ok []
  | a :: t =>
    match f a with
    | .error e => .error e
    | .ok b =>
      match exceptMap f t with
      | .error e => .error e
      | .ok bs => .ok (b :: bs)

/-- `foldlM` over `Except String`. -/
def exceptFoldl {σ α : Type} (f : σ → α → Except String σ) (init : σ) :
    List α → Except String σ
  | [] => .ok init
  | a :: t =>
    match f init a with
    | .error e => .error e
    | .ok s => exceptFoldl f s t

/-- One iteration of the deficiency-derivation loop on raw values
(lines 808–816): `df.get` raises on a non-dict finding; the status must be
a string (or falsy) for `.upper()`. -/
def defStepPy (defs : List PyVal) (df : PyVal) : Except String (List PyVal) := do
  let sRaw ← pyDictGet df "status" PyVal.none
  let s ← pyUpper (pyOr sRaw (.str ""))
  if s ≠ "" && s ≠ "ACCEPTED" then do
    let o ← pyDictGet df "observation" (.str "")
    let it ← pyDictGet df "item" (.str "")
    pure (defs ++ [PyVal.dict [("no", .str (toString (defs.length + 1))),
                               ("text", pyOr o it)]])
  else pure defs

def deriveDefsPy (fs : List PyVal) : Except String (List PyVal) :=
  exceptFoldl defStepPy [] fs

/-- Lines 805–817: derive and store `deficiencies` only when
`rd.get("deficiencies") is None`; also return the local `defs` variable. -/
def defsStepPy (rd : RDict) (detailedFindings : PyVal) :
    Except String (RDict × PyVal) :=
  match rdGet rd "deficiencies" PyVal.none with
  | .none => do
    let fs ← pyIter detailedFindings
    let defsList ← deriveDefsPy fs
    pure (rdSet rd "deficiencies" (.list defsList), .list defsList)
  | v => pure (rd, v)

/-- Lines 819–823: set `deficiencies_summary` from the truthiness of the
local `defs` when the field itself is falsy. -/
def summaryStepPy (rd : RDict) (defs : PyVal) : RDict :=
  if truthy (rdGet rd "deficiencies_summary" PyVal.none) then rd
  else
    rdSet rd "deficiencies_summary"
      (.str (if truthy defs then "Deficiencies noted" else "No deficiencies noted"))

/-- One derived observation row (lines 830–838). -/
def obsRowPy (area : PyVal) (df : PyVal) : Except String PyVal := do
  let sp ← pyDictGet df "item" (.str "")
  let sys ← pyDictGet df "observation" (.str "")
  let sRaw ← pyDictGet df "status" PyVal.none
  let su ← pyUpper (pyOr sRaw (.str ""))
  let rem ← pyDictGet df "remarks" (.str "")
  pure (.dict [("general_location", area), ("specific_location", sp),
               ("system_or_element", sys), ("su", .str su), ("remarks", rem)])

/-- Lines 826–841: derive and store `observations` when the field is `None`
or empty (`len` raises on a non-sized value); also return the local
`obs_list`. -/
def obsStepPy (rd : RDict) (detailedFindings : PyVal) :
    Except String (RDict × PyVal) := do
  let obs := rdGet rd "observations" PyVal.none
  let derive ←
    match obs with
    | .none => pure true
    | v => do
      let n ← pyLen v
      pure (n == 0)
  if derive then do
    let fs ← pyIter detailedFindings
    let l ← exceptMap (obsRowPy (rdGet rd "area_inspected" (.str ""))) fs
    pure (rdSet rd "observations" (.list l), .list l)
  else pure (rd, pyOr obs (.list []))

/-- `seq[i] if i < len(seq) else {}` in the indexed-placeholder loops. -/
def pickItem (seq : PyVal) (i : Nat) : Except String PyVal := do
  let n ← pyLen seq
  if i < n then pyIndex seq i else pure (.dict [])

/-- One placeholder entry of an indexed group: the token for sub-attribute
`fa.1` at 1-based index `i + 1`, valued `p.get(fa.2, "")`. -/
def indexedEntry (groupName : String) (i : Nat) (p : PyVal) (fa : String × String) :
    Except String (String × PyVal) := do
  let v ← pyDictGet p fa.2 (.str "")
  pure ("\x7b\x7b" ++ groupName ++ "_" ++ toString (i + 1) ++ "_" ++ fa.1 ++ "\x7d\x7d", v)

/-- All placeholder entries of one index of an indexed group. -/
def indexedRow (groupName : String) (fields : List (String × String)) (seq : PyVal)
    (i : Nat) : Except String (List (String × PyVal)) := do
  let p ← pickItem seq i
  exceptMap (indexedEntry groupName i p) fields

/-- One indexed placeholder group (lines 877–906): for every 1-based index
up to the cap, the element at that position (or the empty dict), and one
token per sub-attribute with `p.get(attr, "")`. -/
def indexedGroup (groupName : String) (fields : List (String × String)) (cap : Nat)
    (seq : PyVal) : Except String (List (String × PyVal)) := do
  let rows ← exceptMap (indexedRow groupName fields seq) (List.range cap)
  pure rows.join

/-- The complete replacements mapping (lines 843–906), over raw values; the
scalar entries read `rd.get(key, "")` and never raise, the indexed groups
can. -/
def buildReplacementsPy (rd : RDict) (obsLocal : PyVal) :
    Except String (List (String × PyVal)) := do
  let scalars := scalarTokenPairs.map fun p => (p.1, rdGet rd p.2 (.str ""))
  let photoReps ← indexedGroup "PHOTO" [("TITLE", "title"), ("NOTE", "note")] 3
    (pyOr (rdGet rd "photos" (.list [])) (.list []))
  let defReps ← indexedGroup "DEF" [("NO", "no"), ("TEXT", "text")] 5
    (pyOr (rdGet rd "deficiencies" (.list [])) (.list []))
  let prevReps ← indexedGroup "PREV_DEF" [("NO", "no"), ("RESOLUTION", "resolution")] 3
    (pyOr (rdGet rd "previous_deficiencies_resolved" (.list [])) (.list []))
  let obsReps ← indexedGroup "OBS"
    [("GENERAL", "general_location"), ("SPECIFIC", "specific_location"),
     ("SYSTEM", "system_or_element"), ("SU", "su"), ("REMARKS", "remarks")] 15
    (pyOr obsLocal (.list []))
  pure (scalars ++ photoReps ++ defReps ++ prevReps ++ obsReps)

/-- One replacement on raw values: `full_text.replace(old, new)` raises
`TypeError` when the token occurs but the value is not a string. -/
def replaceStepPy (acc : String × Bool) (kv : String × PyVal) :
    Except String (String × Bool) :=
  if containsStr kv.1 acc.1 then
    match kv.2 with
    | .str s => .ok (strReplace acc.1 kv.1 s, true)
    | _ => .error "TypeError: replace expected str"
  else .ok acc

/-- `_replace_in_paragraph` on raw values. -/
def replaceInParagraphPy (reps : List (String × PyVal)) (p : Para) :
    Except String Para :=
  if paraText p = "" then .ok p
  else
    match exceptFoldl replaceStepPy (paraText p, false) reps with
    | .error e => .error e
    | .ok res =>
      .ok (if res.2 then
        match p.runs with
        | [] => p
        | _ :: rest => ⟨res.1 :: rest.map fun _ => ""⟩
      else p)

def replaceCellPy (reps : List (String × PyVal)) (c : Cell) : Except String Cell := do
  let ps ← exceptMap (replaceInParagraphPy reps) c.paras
  pure ⟨ps⟩

def replaceRowPy (reps : List (String × PyVal)) (r : Row) : Except String Row := do
  let cells ← exceptMap (replaceCellPy reps) r.cells
  pure ⟨cells⟩

def replaceBlockPy (reps : List (String × PyVal)) : Block → Except String Block
  | Block.par p => do
    let p' ← replaceInParagraphPy reps p
    pure (Block.par p')
  | Block.tbl t => do
    let rows ← exceptMap (replaceRowPy reps) t.rows
    pure (Block.tbl ⟨t.cols, rows⟩)
  | b => pure b

/-- `replace_placeholders_everywhere` on raw values. -/
def replaceEverywherePy (reps : List (String × PyVal)) (d : Doc) :
    Except String Doc := do
  let body ← exceptMap (replaceBlockPy reps) d.body
  pure ⟨body⟩

/-- The five positional values of one finding (lines 303–309) on raw
values. -/
def fillValuesPy (df : PyVal) : Except String (List PyVal) := do
  let v1 ← pyDictGet df "item" (.str "")
  let v2 ← pyDictGet df "observation" (.str "")
  let v3 ← pyDictGet df "code_or_detail_ref" (.str "")
  let v4 ← pyDictGet df "status" (.str "")
  let v5 ← pyDictGet df "remarks" (.str "")
  pure [v1, v2, v3, v4, v5]

/-- The texts successfully assigned by `row_cells[i].text = v` before the
first non-string value inside the cell range raises (the caller's
`try/except` then stops the whole fill). -/
def writtenTexts (cols : Nat) : List PyVal → (List String × Bool)
  | [] => ([], true)
  | v :: rest =>
    if cols = 0 then ([], true)
    else
      match v with
      | .str s =>
        let r := writtenTexts (cols - 1) rest
        (s :: r.1, r.2)
      | _ => ([], false)

/-- The row `add_row` leaves behind for one finding on raw values, plus
whether the write loop completed. -/
def mkRowPy (cols : Nat) (vals : List PyVal) : Row × Bool :=
  let r := writtenTexts cols vals
  (⟨(List.range cols).map fun i =>
      if i < r.1.length then textCell (r.1.getD i "") else newCell⟩,
   r.2)

/-- The append loop of `fill_findings_table` on raw values: a row is added
before its values are computed, so the exception that stops the fill leaves
the last row empty or partially written. -/
def fillLoopPy (cols : Nat) : List PyVal → List Row
  | [] => []
  | df :: rest =>
    match fillValuesPy df with
    | .error _ => [⟨(List.range cols).map fun _ => newCell⟩]
    | .ok vals =>
      let r := mkRowPy cols vals
      r.1 :: (if r.2 then fillLoopPy cols rest else [])

/-- `fill_findings_table` on the located table, under the caller's
`try/except` (line 911): the header always survives, the data rows are
whatever the loop produced before an exception. -/
def fillTargetPy (t : Table) (findings : PyVal) : Table :=
  match pyIter (pyOr findings (.list [])) with
  | .error _ => ⟨t.cols, t.rows.take 1⟩
  | .ok fs => ⟨t.cols, t.rows.take 1 ++ fillLoopPy t.cols fs⟩

def fillBlocksPy (findings : PyVal) : List Block → List Block
  | [] => []
  | Block.tbl t :: bs =>
    if isFindingsTable t then Block.tbl (fillTargetPy t findings) :: bs
    else Block.tbl t :: fillBlocksPy findings bs
  | b :: bs => b :: fillBlocksPy findings bs

/-- The per-attachment loop on raw values (lines 921–931): a non-string
entry makes `re.match` raise inside the `try`, which skips that entry. -/
def embedLoopPyItems (o : ImgOracle) (idx : Nat) : List PyVal → List Block
  | [] => []
  | v :: rest =>
    (match v with
     | .str u =>
       match dataUrlPayload u with
       | some payload =>
         match o.b64decode payload with
         | some bytes =>
           Block.par ⟨["Photo " ++ toString idx ++ ":"]⟩ ::
             (if o.addPicture bytes then [Block.pic bytes] else [])
         | Option.none => []
       | Option.none => []
     | _ => []) ++ embedLoopPyItems o (idx + 1) rest

/-- Lines 917–931 on raw values.  The page break and heading are added
before `enumerate` runs, but an `enumerate` over a non-iterable raises
OUTSIDE the per-entry `try` and aborts the request, so the document state
on that path is unobservable and the step returns the error. -/
def embedImagesPy (o : ImgOracle) (d : Doc) (atts : PyVal) : Except String Doc :=
  if truthy atts then
    match pyIter atts with
    | .error e => .error e
    | .ok items =>
      .ok ⟨d.body ++ Block.pageBreak :: Block.par ⟨["Photo Attachments"]⟩ ::
        embedLoopPyItems o 1 items⟩
  else .ok d

/-- `slugify_trade` applied to a raw value (for the suggested filename,
line 937): `(v or "").lower()` raises on a truthy non-string. -/
def slugifyTradePy (v : PyVal) : Except String String :=
  match pyOr v (.str "") with
  | .str s => .ok (slugifyTrade s)
  | _ => .error "AttributeError: lower"

/-- Everything `export_report_docx` does after the template is loaded
(lines 802–944), on a raw record: derive `deficiencies`,
`deficiencies_summary` and `observations`, build the replacements mapping,
substitute, fill the findings table (only when `detailed_findings` is
truthy, and under `try/except`), embed the attachment images, and compute
the suggested filename. -/
def exportAfterLoad (o : ImgOracle) (d : Doc) (rd : RDict) :
    Except String (Doc × String) := do
  let detailedFindings := pyOr (rdGet rd "detailed_findings" (.list [])) (.list [])
  let r1 ← defsStepPy rd detailedFindings
  let rd2 := summaryStepPy r1.1 r1.2
  let r2 ← obsStepPy rd2 detailedFindings
  let reps ← buildReplacementsPy r2.1 r2.2
  let d1 ← replaceEverywherePy reps d
  let d2 := if truthy detailedFindings then Doc.mk (fillBlocksPy detailedFindings d1.body)
            else d1
  let atts := pyOr (rdGet r2.1 "attachments_images" (.list [])) (.list [])
  let d3 ← embedImagesPy o d2 atts
  let safeName ← slugifyTradePy (pyOr (rdGet r2.1 "project_name" PyVal.none)
    (.str "inspection_report"))
  pure (d3, safeName ++ ".docx")

/-! ### Well-typed records assemble

`wellTypedRD` is the well-typedness the claim's amendment needs: a field
may be absent, and a present field must have the record's documented shape
(scalars strings, the five sequences lists of dicts with string
sub-fields, `attachments_images` a list). -/

def optStrOk : Option PyVal → Bool
  | Option.none => true
  | some (.str _) => true
  | some _ => false

def strField (kvs : List (String × PyVal)) (k : String) : Bool :=
  optStrOk (kvs.lookup k)

def dictWithStrFields (ks : List String) : PyVal → Bool
  | .dict kvs => ks.all (strField kvs)
  | _ => false

def optListOf (p : PyVal → Bool) : Option PyVal → Bool
  | Option.none => true
  | some (.list l) => l.all p
  | some _ => false

def scalarKeys : List String := scalarTokenPairs.map Prod.snd

def findingKeys : List String :=
  ["status", "observation", "item", "remarks", "code_or_detail_ref"]

def obsKeys : List String :=
  ["general_location", "specific_location", "system_or_element", "su", "remarks"]

/-- Every present field of the record has its documented type. -/
def wellTypedRD (rd : RDict) : Bool :=
  scalarKeys.all (fun k => optStrOk (rd k)) &&
  optListOf (dictWithStrFields findingKeys) (rd "detailed_findings") &&
  optListOf (dictWithStrFields ["no", "text"]) (rd "deficiencies") &&
  optListOf (dictWithStrFields obsKeys) (rd "observations") &&
  optListOf (dictWithStrFields ["title", "note"]) (rd "photos") &&
  optListOf (dictWithStrFields ["no", "resolution"]) (rd "previous_deficiencies_resolved") &&
  optListOf (fun _ => true) (rd "attachments_images")

theorem rdSet_ne (rd : RDict) (k v k') (h : k' ≠ k) : rdSet rd k v k' = rd k' := by
  simp [rdSet, h]

theorem rdSet_eq (rd : RDict) (k v) : rdSet rd k v k = some v := by
  simp [rdSet]

theorem exBind_ok {α β : Type} (a : α) (f : α → Except String β) :
    (Bind.bind (Except.ok a) f : Except String β) = f a := rfl

theorem exPure_ok {α : Type} (a : α) : (pure a : Except String α) = .ok a := rfl

theorem exMap_ok_fn {α β : Type} (f : α → β) (a : α) :
    (f <$> (Except.ok a : Except String α)) = .ok (f a) := rfl

theorem optStrOk_getD {ov : Option PyVal} (h : optStrOk ov = true) (d : String) :
    ∃ s, ov.getD (.str d) = .str s := by
  match ov with
  | Option.none => exact ⟨d, rfl⟩
  | some (.str s) => exact ⟨s, rfl⟩
  | some .none | some (.int _) | some (.list _) | some (.dict _) => simp [optStrOk] at h

theorem pyOr_str (sa sb : String) : ∃ s, pyOr (.str sa) (.str sb) = .str s := by
  unfold pyOr
  by_cases h : truthy (PyVal.str sa) = true
  · exact ⟨sa, by simp [h]⟩
  · exact ⟨sb, by simp [h]⟩

theorem dictWithStrFields_empty (ks : List String) :
    dictWithStrFields ks (.dict []) = true := by
  unfold dictWithStrFields
  exact List.all_eq_true.mpr fun k _ => rfl

theorem strFieldGet {ks : List String} {p : PyVal} (hp : dictWithStrFields ks p = true)
    {k : String} (hk : k ∈ ks) (d : String) :
    ∃ s, pyDictGet p k (.str d) = .ok (.str s) := by
  match p with
  | .dict kvs =>
    have hf : strField kvs k = true := List.all_eq_true.mp hp k hk
    obtain ⟨s, hs⟩ := optStrOk_getD hf d
    exact ⟨s, by simp [pyDictGet, hs]⟩
  | .none | .str _ | .int _ | .list _ => simp [dictWithStrFields] at hp

/-- `(df.get("status") or "").upper()` succeeds on a finding-shaped dict. -/
theorem statusUpper_ok {ks : List String} {df : PyVal}
    (hdf : dictWithStrFields ks df = true) (hk : "status" ∈ ks) :
    ∃ v su, pyDictGet df "status" PyVal.none = .ok v ∧
      pyUpper (pyOr v (.str "")) = .ok su := by
  match df with
  | .dict kvs =>
    have hf : strField kvs "status" = true := List.all_eq_true.mp hdf "status" hk
    unfold strField at hf
    match hl : kvs.lookup "status" with
    | Option.none =>
      refine ⟨.none, "", by simp [pyDictGet, hl], by simp [pyOr, truthy, pyUpper]; rfl⟩
    | some (.str s) =>
      by_cases ht : truthy (PyVal.str s) = true
      · exact ⟨.str s, upperStr s, by simp [pyDictGet, hl], by simp [pyOr, ht, pyUpper]⟩
      · exact ⟨.str s, upperStr "", by simp [pyOr, pyDictGet, hl], by simp [pyOr, ht, pyUpper]⟩
    | some .none | some (.int _) | some (.list _) | some (.dict _) =>
      rw [hl] at hf; simp [optStrOk] at hf
  | .none | .str _ | .int _ | .list _ => simp [dictWithStrFields] at hdf

/-- The products of `pyOr (rd.get(k, []) or [])` on a well-typed list
field: always a list whose elements keep the field predicate. -/
theorem pyOrListFact {rd : RDict} {k : String} {p : PyVal → Bool}
    (h : optListOf p (rd k) = true) :
    ∃ l, pyOr (rdGet rd k (.list [])) (.list []) = .list l ∧ ∀ x ∈ l, p x = true := by
  match hk : rd k with
  | Option.none => exact ⟨[], by simp [rdGet, hk, pyOr, truthy], by simp⟩
  | some (.list l) =>
    rw [hk] at h
    have hall : ∀ x ∈ l, p x = true := List.all_eq_true.mp h
    unfold rdGet pyOr
    rw [hk]
    by_cases ht : truthy (PyVal.list l) = true
    · exact ⟨l, by simp [ht], hall⟩
    · exact ⟨[], by simp [ht], by simp⟩
  | some .none | some (.str _) | some (.int _) | some (.dict _) =>
    rw [hk] at h; simp [optListOf] at h

/-- The same for a raw value rather than a record field. -/
theorem pyOrListVal {v : PyVal} {p : PyVal → Bool} {l : List PyVal}
    (hv : v = .list l) (hl : ∀ x ∈ l, p x = true) :
    ∃ l', pyOr v (.list []) = .list l' ∧ ∀ x ∈ l', p x = true := by
  subst hv
  unfold pyOr
  by_cases ht : truthy (PyVal.list l) = true
  · exact ⟨l, by simp [ht], hl⟩
  · exact ⟨[], by simp [ht], by simp⟩

/-- Generic success lemma for `exceptMap`. -/
theorem exceptMap_ok {α β : Type} (f : α → Except String β) (Q : α → Prop) (P : β → Prop)
    (hstep : ∀ a, Q a → ∃ b, f a = .ok b ∧ P b) :
    ∀ l : List α, (∀ a ∈ l, Q a) →
      ∃ bl, exceptMap f l = .ok bl ∧ ∀ b ∈ bl, P b := by
  intro l
  induction l with
  | nil => exact fun _ => ⟨[], rfl, by simp⟩
  | cons a t ih =>
    intro hl
    obtain ⟨b, hb, hPb⟩ := hstep a (hl a (by simp))
    obtain ⟨bl, hbl, hPbl⟩ := ih fun x hx => hl x (by simp [hx])
    refine ⟨b :: bl, ?_, ?_⟩
    · simp [exceptMap, hb, hbl]
    · intro x hx
      rcases List.mem_cons.mp hx with h | h
      · exact h ▸ hPb
      · exact hPbl x h

/-- Generic success lemma for `exceptFoldl`. -/
theorem exceptFoldl_ok {σ α : Type} (f : σ → α → Except String σ) (Q : α → Prop)
    (P : σ → Prop)
    (hstep : ∀ s a, P s → Q a → ∃ s', f s a = .ok s' ∧ P s') :
    ∀ l : List α, (∀ a ∈ l, Q a) → ∀ init, P init →
      ∃ r, exceptFoldl f init l = .ok r ∧ P r := by
  intro l
  induction l with
  | nil => exact fun _ init hinit => ⟨init, rfl, hinit⟩
  | cons a t ih =>
    intro hl init hinit
    obtain ⟨s', hs', hPs'⟩ := hstep init a hinit (hl a (by simp))
    obtain ⟨r, hr, hPr⟩ := ih (fun x hx => hl x (by simp [hx])) s' hPs'
    exact ⟨r, by simp [exceptFoldl, hs', hr], hPr⟩

theorem defStepPy_ok (acc : List PyVal) (df : PyVal)
    (hdf : dictWithStrFields findingKeys df = true)
    (hacc : ∀ x ∈ acc, dictWithStrFields ["no", "text"] x = true) :
    ∃ acc', defStepPy acc df = .ok acc' ∧
      ∀ x ∈ acc', dictWithStrFields ["no", "text"] x = true := by
  obtain ⟨v, su, hv, hsu⟩ := statusUpper_ok hdf (by decide)
  by_cases hcond : (su ≠ "" && su ≠ "ACCEPTED") = true
  · rw [Bool.and_eq_true, decide_eq_true_eq, decide_eq_true_eq] at hcond
    obtain ⟨hne1, hne2⟩ := hcond
    obtain ⟨so, ho⟩ := strFieldGet hdf (show "observation" ∈ findingKeys by decide) ""
    obtain ⟨si, hi⟩ := strFieldGet hdf (show "item" ∈ findingKeys by decide) ""
    obtain ⟨st, hst⟩ := pyOr_str so si
    refine ⟨acc ++ [.dict [("no", .str (toString (acc.length + 1))), ("text", .str st)]],
      ?_, ?_⟩
    · simp [defStepPy, hv, hsu, hne1, hne2, ho, hi, hst, exBind_ok, exPure_ok, exMap_ok_fn]
    · intro x hx
      rcases List.mem_append.mp hx with h | h
      · exact hacc x h
      · have hxe : x = .dict [("no", .str (toString (acc.length + 1))),
            ("text", .str st)] := by simpa using h
        subst hxe
        rfl
  · refine ⟨acc, ?_, hacc⟩
    simp only [defStepPy, hv, exBind_ok, hsu]
    rw [if_neg hcond]
    rfl

theorem deriveDefsPy_ok (dl : List PyVal)
    (hdl : ∀ x ∈ dl, dictWithStrFields findingKeys x = true) :
    ∃ derived, deriveDefsPy dl = .ok derived ∧
      ∀ x ∈ derived, dictWithStrFields ["no", "text"] x = true := by
  have := exceptFoldl_ok defStepPy
    (Q := fun df => dictWithStrFields findingKeys df = true)
    (P := fun acc => ∀ x ∈ acc, dictWithStrFields ["no", "text"] x = true)
    (fun s a hP hQ => defStepPy_ok s a hQ hP) dl hdl [] (by simp)
  simpa [deriveDefsPy] using this

theorem defsStepPy_ok (rd : RDict) (det : PyVal) (dl : List PyVal)
    (hdet : det = .list dl)
    (hdl : ∀ x ∈ dl, dictWithStrFields findingKeys x = true)
    (hdefs : optListOf (dictWithStrFields ["no", "text"]) (rd "deficiencies") = true) :
    ∃ rd1 dv, defsStepPy rd det = .ok (rd1, dv) ∧
      (∀ k, k ≠ "deficiencies" → rd1 k = rd k) ∧
      optListOf (dictWithStrFields ["no", "text"]) (rd1 "deficiencies") = true := by
  subst hdet
  match hk : rd "deficiencies" with
  | Option.none =>
    obtain ⟨derived, hder, hderOk⟩ := deriveDefsPy_ok dl hdl
    have hget : rdGet rd "deficiencies" PyVal.none = PyVal.none := by simp [rdGet, hk]
    refine ⟨rdSet rd "deficiencies" (.list derived), .list derived, ?_, ?_, ?_⟩
    · simp [defsStepPy, hget, pyIter, hder, exBind_ok]
    · intro k hk'
      exact rdSet_ne rd _ _ k hk'
    · rw [rdSet_eq]
      exact List.all_eq_true.mpr hderOk
  | some (.list dl0) =>
    have hget : rdGet rd "deficiencies" PyVal.none = .list dl0 := by simp [rdGet, hk]
    refine ⟨rd, .list dl0, by simp [defsStepPy, hget, exPure_ok], fun _ _ => rfl, hdefs⟩
  | some .none | some (.str _) | some (.int _) | some (.dict _) =>
    rw [hk] at hdefs; simp [optListOf] at hdefs

theorem summaryStepPy_facts (rd : RDict) (defs : PyVal)
    (hsum : optStrOk (rd "deficiencies_summary") = true) :
    (∀ k, k ≠ "deficiencies_summary" → summaryStepPy rd defs k = rd k) ∧
    optStrOk (summaryStepPy rd defs "deficiencies_summary") = true := by
  unfold summaryStepPy
  by_cases ht : truthy (rdGet rd "deficiencies_summary" PyVal.none) = true
  · rw [if_pos ht]
    exact ⟨fun _ _ => rfl, hsum⟩
  · rw [if_neg ht]
    refine ⟨fun k hk => rdSet_ne rd _ _ k hk, ?_⟩
    rw [rdSet_eq]
    rfl

theorem obsRowPy_ok (area : PyVal) (harea : ∃ s, area = .str s) (df : PyVal)
    (hdf : dictWithStrFields findingKeys df = true) :
    ∃ row, obsRowPy area df = .ok row ∧ dictWithStrFields obsKeys row = true := by
  obtain ⟨sa, rfl⟩ := harea
  obtain ⟨s1, h1⟩ := strFieldGet hdf (show "item" ∈ findingKeys by decide) ""
  obtain ⟨s2, h2⟩ := strFieldGet hdf (show "observation" ∈ findingKeys by decide) ""
  obtain ⟨v, su, hv, hsu⟩ := statusUpper_ok hdf (by decide)
  obtain ⟨s5, h5⟩ := strFieldGet hdf (show "remarks" ∈ findingKeys by decide) ""
  refine ⟨.dict [("general_location", .str sa), ("specific_location", .str s1),
    ("system_or_element", .str s2), ("su", .str su), ("remarks", .str s5)], ?_, ?_⟩
  · simp [obsRowPy, h1, h2, hv, hsu, h5, exBind_ok]
  · rfl

theorem obsStepPy_ok (rd : RDict) (det : PyVal) (dl : List PyVal)
    (hdet : det = .list dl)
    (hdl : ∀ x ∈ dl, dictWithStrFields findingKeys x = true)
    (hobs : optListOf (dictWithStrFields obsKeys) (rd "observations") = true)
    (harea : optStrOk (rd "area_inspected") = true) :
    ∃ rd' ov l, obsStepPy rd det = .ok (rd', ov) ∧
      (∀ k, k ≠ "observations" → rd' k = rd k) ∧
      ov = .list l ∧ ∀ x ∈ l, dictWithStrFields obsKeys x = true := by
  subst hdet
  obtain ⟨sa, hsa⟩ := optStrOk_getD harea ""
  have hderive : ∃ derived, exceptMap (obsRowPy (rdGet rd "area_inspected" (.str ""))) dl =
      .ok derived ∧ ∀ x ∈ derived, dictWithStrFields obsKeys x = true :=
    exceptMap_ok _ (Q := fun df => dictWithStrFields findingKeys df = true)
      (P := fun row => dictWithStrFields obsKeys row = true)
      (fun df hdf => obsRowPy_ok _ ⟨sa, hsa⟩ df hdf) dl hdl
  obtain ⟨derived, hder, hderOk⟩ := hderive
  match hk : rd "observations" with
  | Option.none =>
    have hget : rdGet rd "observations" PyVal.none = PyVal.none := by simp [rdGet, hk]
    refine ⟨rdSet rd "observations" (.list derived), .list derived, derived, ?_, ?_, rfl,
      hderOk⟩
    · simp [obsStepPy, hget, pyIter, hder, exBind_ok]
    · intro k hk'
      exact rdSet_ne rd _ _ k hk'
  | some (.list l0) =>
    have hget : rdGet rd "observations" PyVal.none = .list l0 := by simp [rdGet, hk]
    rw [hk] at hobs
    have hl0 : ∀ x ∈ l0, dictWithStrFields obsKeys x = true := List.all_eq_true.mp hobs
    by_cases hemp : l0 = []
    · subst hemp
      refine ⟨rdSet rd "observations" (.list derived), .list derived, derived, ?_, ?_, rfl,
        hderOk⟩
      · simp [obsStepPy, hget, pyLen, pyIter, hder, exBind_ok, exPure_ok, exMap_ok_fn]
      · intro k hk'
        exact rdSet_ne rd _ _ k hk'
    · have hor : pyOr (PyVal.list l0) (.list []) = .list l0 := by
        simp [pyOr, truthy, hemp]
      have hcond : ¬((l0.length == 0) = true) := by
        simpa [List.length_eq_zero] using hemp
      refine ⟨rd, .list l0, l0, ?_, fun _ _ => rfl, rfl, hl0⟩
      simp only [obsStepPy, hget, exBind_ok, pyLen, exPure_ok]
      rw [if_neg hcond, hor]
  | some .none | some (.str _) | some (.int _) | some (.dict _) =>
    rw [hk] at hobs; simp [optListOf] at hobs

theorem pickItem_ok (l : List PyVal) (ks : List String)
    (hl : ∀ x ∈ l, dictWithStrFields ks x = true) (i : Nat) :
    ∃ p, pickItem (.list l) i = .ok p ∧ dictWithStrFields ks p = true := by
  by_cases hi : i < l.length
  · match hg : l.get? i with
    | some x =>
      have hx : x ∈ l := List.get?_mem hg
      have hg2 : l[i]? = some x := by
        rw [← List.get?_eq_getElem?]
        exact hg
      have hidx : pyIndex (.list l) i = .ok x := by
        simp [pyIndex, hg2]
      refine ⟨x, ?_, hl x hx⟩
      simp only [pickItem, pyLen, exBind_ok]
      rw [if_pos hi, hidx]
    | Option.none =>
      have := List.get?_eq_none.mp hg
      omega
  · refine ⟨.dict [], ?_, dictWithStrFields_empty ks⟩
    simp only [pickItem, pyLen, exBind_ok]
    rw [if_neg hi]
    rfl

theorem indexedRow_ok (g : String) (fields : List (String × String)) (ks : List String)
    (hfields : ∀ fa ∈ fields, fa.2 ∈ ks) (l : List PyVal)
    (hl : ∀ x ∈ l, dictWithStrFields ks x = true) (i : Nat) :
    ∃ row, indexedRow g fields (.list l) i = .ok row ∧
      ∀ kv ∈ row, ∃ s, kv.2 = .str s := by
  obtain ⟨p, hp, hpOk⟩ := pickItem_ok l ks hl i
  obtain ⟨row, hrow, hrowOk⟩ := exceptMap_ok (indexedEntry g i p)
    (Q := fun fa => fa.2 ∈ ks) (P := fun kv => ∃ s, kv.2 = .str s)
    (fun fa hfa => by
      obtain ⟨s, hs⟩ := strFieldGet hpOk hfa ""
      exact ⟨("\x7b\x7b" ++ g ++ "_" ++ toString (i + 1) ++ "_" ++ fa.1 ++ "\x7d\x7d", .str s),
        by simp [indexedEntry, hs, exBind_ok, exPure_ok, exMap_ok_fn], ⟨s, rfl⟩⟩)
    fields hfields
  exact ⟨row, by simp [indexedRow, hp, hrow, exBind_ok], hrowOk⟩

theorem indexedGroup_ok (g : String) (fields : List (String × String)) (cap : Nat)
    (seq : PyVal) (ks : List String) (l : List PyVal)
    (hseq : seq = .list l) (hl : ∀ x ∈ l, dictWithStrFields ks x = true)
    (hfields : ∀ fa ∈ fields, fa.2 ∈ ks) :
    ∃ reps, indexedGroup g fields cap seq = .ok reps ∧
      ∀ kv ∈ reps, ∃ s, kv.2 = .str s := by
  subst hseq
  obtain ⟨rows, hrows, hrowsOk⟩ := exceptMap_ok (indexedRow g fields (.list l))
    (Q := fun _ => True) (P := fun row => ∀ kv ∈ row, ∃ s, kv.2 = .str s)
    (fun i _ => indexedRow_ok g fields ks hfields l hl i) (List.range cap) (by simp)
  refine ⟨rows.join, by simp [indexedGroup, hrows, exBind_ok], ?_⟩
  intro kv hkv
  obtain ⟨row, hrow, hkvrow⟩ := List.mem_join.mp hkv
  exact hrowsOk row hrow kv hkvrow

theorem buildReplacementsPy_ok (rd : RDict) (obsLocal : PyVal) (lo : List PyVal)
    (hscal : ∀ k ∈ scalarKeys, optStrOk (rd k) = true)
    (hph : optListOf (dictWithStrFields ["title", "note"]) (rd "photos") = true)
    (hdf : optListOf (dictWithStrFields ["no", "text"]) (rd "deficiencies") = true)
    (hpv : optListOf (dictWithStrFields ["no", "resolution"])
      (rd "previous_deficiencies_resolved") = true)
    (hol : obsLocal = .list lo)
    (hloOk : ∀ x ∈ lo, dictWithStrFields obsKeys x = true) :
    ∃ reps, buildReplacementsPy rd obsLocal = .ok reps ∧
      ∀ kv ∈ reps, ∃ s, kv.2 = .str s := by
  obtain ⟨lp, hlp, hlpOk⟩ := pyOrListFact hph
  obtain ⟨g1, hg1, hg1Ok⟩ := indexedGroup_ok "PHOTO" [("TITLE", "title"), ("NOTE", "note")]
    3 _ ["title", "note"] lp hlp hlpOk (by decide)
  obtain ⟨ld, hld, hldOk⟩ := pyOrListFact hdf
  obtain ⟨g2, hg2, hg2Ok⟩ := indexedGroup_ok "DEF" [("NO", "no"), ("TEXT", "text")]
    5 _ ["no", "text"] ld hld hldOk (by decide)
  obtain ⟨lv, hlv, hlvOk⟩ := pyOrListFact hpv
  obtain ⟨g3, hg3, hg3Ok⟩ := indexedGroup_ok "PREV_DEF"
    [("NO", "no"), ("RESOLUTION", "resolution")] 3 _ ["no", "resolution"] lv hlv hlvOk
    (by decide)
  obtain ⟨lo', hlo', hlo'Ok⟩ := pyOrListVal hol hloOk
  obtain ⟨g4, hg4, hg4Ok⟩ := indexedGroup_ok "OBS"
    [("GENERAL", "general_location"), ("SPECIFIC", "specific_location"),
     ("SYSTEM", "system_or_element"), ("SU", "su"), ("REMARKS", "remarks")]
    15 _ obsKeys lo' hlo' hlo'Ok (by decide)
  refine ⟨(scalarTokenPairs.map fun p => (p.1, rdGet rd p.2 (.str ""))) ++ g1 ++ g2 ++
    g3 ++ g4, ?_, ?_⟩
  · simp [buildReplacementsPy, hg1, hg2, hg3, hg4, exBind_ok, List.append_assoc]
  · intro kv hkv
    simp only [List.append_assoc, List.mem_append] at hkv
    rcases hkv with h | h | h | h | h
    · obtain ⟨pr, hpr, hkv⟩ := List.mem_map.mp h
      subst hkv
      have hks : pr.2 ∈ scalarKeys := List.mem_map.mpr ⟨pr, hpr, rfl⟩
      exact optStrOk_getD (hscal pr.2 hks) ""
    · exact hg1Ok kv h
    · exact hg2Ok kv h
    · exact hg3Ok kv h
    · exact hg4Ok kv h

theorem replaceStepPy_ok (acc : String × Bool) (kv : String × PyVal)
    (h : ∃ s, kv.2 = .str s) : ∃ acc', replaceStepPy acc kv = .ok acc' := by
  obtain ⟨s, hs⟩ := h
  by_cases hc : containsStr kv.1 acc.1 = true
  · exact ⟨(strReplace acc.1 kv.1 s, true), by simp [replaceStepPy, hc, hs]⟩
  · exact ⟨acc, by simp [replaceStepPy, hc]⟩

theorem replaceInParagraphPy_ok (reps : List (String × PyVal))
    (hreps : ∀ kv ∈ reps, ∃ s, kv.2 = .str s) (p : Para) :
    ∃ p', replaceInParagraphPy reps p = .ok p' := by
  by_cases hp : paraText p = ""
  · exact ⟨p, by simp [replaceInParagraphPy, hp]⟩
  · obtain ⟨r, hr, _⟩ := exceptFoldl_ok replaceStepPy
      (Q := fun kv => ∃ s, kv.2 = PyVal.str s) (P := fun _ => True)
      (fun s a _ hQ => by
        obtain ⟨acc', h⟩ := replaceStepPy_ok s a hQ
        exact ⟨acc', h, trivial⟩)
      reps hreps (paraText p, false) trivial
    refine ⟨(if r.2 then
        match p.runs with
        | [] => p
        | _ :: rest => ⟨r.1 :: rest.map fun _ => ""⟩
      else p : Para), ?_⟩
    unfold replaceInParagraphPy
    rw [if_neg hp, hr]

theorem replaceBlockPy_ok (reps : List (String × PyVal))
    (hreps : ∀ kv ∈ reps, ∃ s, kv.2 = .str s) (b : Block) :
    ∃ b', replaceBlockPy reps b = .ok b' := by
  cases b with
  | par p =>
    obtain ⟨p', hp'⟩ := replaceInParagraphPy_ok reps hreps p
    exact ⟨Block.par p', by simp [replaceBlockPy, hp', exBind_ok]⟩
  | tbl t =>
    have hcell : ∀ c : Cell, True → ∃ c', replaceCellPy reps c = .ok c' ∧ True := by
      intro c _
      obtain ⟨ps, hps, _⟩ := exceptMap_ok (replaceInParagraphPy reps) (Q := fun _ => True)
        (P := fun _ => True)
        (fun p _ => by
          obtain ⟨p', hp'⟩ := replaceInParagraphPy_ok reps hreps p
          exact ⟨p', hp', trivial⟩)
        c.paras (by simp)
      exact ⟨⟨ps⟩, by simp [replaceCellPy, hps, exBind_ok], trivial⟩
    have hrow : ∀ r : Row, True → ∃ r', replaceRowPy reps r = .ok r' ∧ True := by
      intro r _
      obtain ⟨cells, hcells, _⟩ := exceptMap_ok (replaceCellPy reps) (Q := fun _ => True)
        (P := fun _ => True) hcell r.cells (by simp)
      exact ⟨⟨cells⟩, by simp [replaceRowPy, hcells, exBind_ok], trivial⟩
    obtain ⟨rows, hrows, _⟩ := exceptMap_ok (replaceRowPy reps) (Q := fun _ => True)
      (P := fun _ => True) hrow t.rows (by simp)
    exact ⟨Block.tbl ⟨t.cols, rows⟩, by simp [replaceBlockPy, hrows, exBind_ok]⟩
  | pageBreak => exact ⟨Block.pageBreak, rfl⟩
  | pic bytes => exact ⟨Block.pic bytes, rfl⟩

theorem replaceEverywherePy_ok (reps : List (String × PyVal))
    (hreps : ∀ kv ∈ reps, ∃ s, kv.2 = .str s) (d : Doc) :
    ∃ d', replaceEverywherePy reps d = .ok d' := by
  obtain ⟨body, hbody, _⟩ := exceptMap_ok (replaceBlockPy reps) (Q := fun _ => True)
    (P := fun _ => True)
    (fun b _ => by
      obtain ⟨b', hb'⟩ := replaceBlockPy_ok reps hreps b
      exact ⟨b', hb', trivial⟩)
    d.body (by simp)
  exact ⟨⟨body⟩, by simp [replaceEverywherePy, hbody, exBind_ok]⟩

theorem embedImagesPy_ok (o : ImgOracle) (d : Doc) (atts : PyVal) (la : List PyVal)
    (hatts : atts = .list la) : ∃ d', embedImagesPy o d atts = .ok d' := by
  subst hatts
  by_cases ht : truthy (PyVal.list la) = true
  · refine ⟨⟨d.body ++ Block.pageBreak :: Block.par ⟨["Photo Attachments"]⟩ ::
      embedLoopPyItems o 1 la⟩, ?_⟩
    unfold embedImagesPy
    rw [if_pos ht]
    rfl
  · refine ⟨d, ?_⟩
    unfold embedImagesPy
    rw [if_neg ht]

theorem slugifyTradePy_ok (ov : Option PyVal) (h : optStrOk ov = true) :
    ∃ s, slugifyTradePy (pyOr (ov.getD PyVal.none) (.str "inspection_report")) = .ok s := by
  match ov, h with
  | Option.none, _ =>
    exact ⟨slugifyTrade "inspection_report", by simp [pyOr, truthy, slugifyTradePy]⟩
  | some (.str s), _ =>
    by_cases ht : truthy (PyVal.str s) = true
    · refine ⟨slugifyTrade s, ?_⟩
      have h1 : pyOr ((some (PyVal.str s)).getD PyVal.none) (.str "inspection_report") =
          .str s := by simp [pyOr, ht]
      rw [h1]
      unfold slugifyTradePy
      rw [show pyOr (PyVal.str s) (.str "") = .str s from by simp [pyOr, ht]]
    · have hs : s = "" := by simpa [truthy] using ht
      subst hs
      exact ⟨slugifyTrade "inspection_report", rfl⟩

theorem slugifyTradePy_ok_rd (rd : RDict) (k : String) (h : optStrOk (rd k) = true) :
    ∃ s, slugifyTradePy (pyOr (rdGet rd k PyVal.none) (.str "inspection_report")) =
      .ok s := by
  have := slugifyTradePy_ok (rd k) h
  simpa [rdGet] using this

theorem wellTypedRD_parts {rd : RDict} (h : wellTypedRD rd = true) :
    (∀ k ∈ scalarKeys, optStrOk (rd k) = true) ∧
    optListOf (dictWithStrFields findingKeys) (rd "detailed_findings") = true ∧
    optListOf (dictWithStrFields ["no", "text"]) (rd "deficiencies") = true ∧
    optListOf (dictWithStrFields obsKeys) (rd "observations") = true ∧
    optListOf (dictWithStrFields ["title", "note"]) (rd "photos") = true ∧
    optListOf (dictWithStrFields ["no", "resolution"])
      (rd "previous_deficiencies_resolved") = true ∧
    optListOf (fun _ => true) (rd "attachments_images") = true := by
  unfold wellTypedRD at h
  simp only [Bool.and_eq_true] at h
  obtain ⟨⟨⟨⟨⟨⟨h1, h2⟩, h3⟩, h4⟩, h5⟩, h6⟩, h7⟩ := h
  exact ⟨fun k hk => List.all_eq_true.mp h1 k hk, h2, h3, h4, h5, h6, h7⟩

/-- Amended C4: once a template is loaded, assembly completes and returns a
document for every record whose PRESENT fields are well-typed (absent
fields are coerced to empty defaults rather than raising).  A wrong-typed
field can instead raise: see the counterexample. -/
theorem c4_welltyped_record_assembles_amended (o : ImgOracle) (d : Doc) (rd : RDict)
    (h : wellTypedRD rd = true) :
    ∃ out, exportAfterLoad o d rd = .ok out := by
  obtain ⟨hscal, hfind, hdefs, hobs, hphotos, hprev, hatts⟩ := wellTypedRD_parts h
  obtain ⟨dl, hdet, hdl⟩ := pyOrListFact hfind
  obtain ⟨rd1, dv, h1, hk1, hdefs1⟩ := defsStepPy_ok rd _ dl hdet hdl hdefs
  have hsumRd : optStrOk (rd1 "deficiencies_summary") = true := by
    rw [hk1 _ (by decide)]
    exact hscal _ (by decide)
  obtain ⟨hk2, hsum2⟩ := summaryStepPy_facts rd1 dv hsumRd
  have hobs2 : optListOf (dictWithStrFields obsKeys)
      ((summaryStepPy rd1 dv) "observations") = true := by
    rw [hk2 _ (by decide), hk1 _ (by decide)]
    exact hobs
  have harea2 : optStrOk ((summaryStepPy rd1 dv) "area_inspected") = true := by
    rw [hk2 _ (by decide), hk1 _ (by decide)]
    exact hscal _ (by decide)
  obtain ⟨rd3, ov, lo, h2, hk3, hov, hloOk⟩ :=
    obsStepPy_ok (summaryStepPy rd1 dv) _ dl hdet hdl hobs2 harea2
  have hscal3 : ∀ k ∈ scalarKeys, optStrOk (rd3 k) = true := by
    intro k hk
    by_cases hks : k = "deficiencies_summary"
    · subst hks
      rw [hk3 _ (by decide)]
      exact hsum2
    · have hkobs : k ≠ "observations" := by
        intro he
        subst he
        exact absurd hk (by decide)
      have hkdef : k ≠ "deficiencies" := by
        intro he
        subst he
        exact absurd hk (by decide)
      rw [hk3 k hkobs, hk2 k hks, hk1 k hkdef]
      exact hscal k hk
  have hph3 : optListOf (dictWithStrFields ["title", "note"]) (rd3 "photos") = true := by
    rw [hk3 _ (by decide), hk2 _ (by decide), hk1 _ (by decide)]
    exact hphotos
  have hdf3 : optListOf (dictWithStrFields ["no", "text"]) (rd3 "deficiencies") = true := by
    rw [hk3 _ (by decide), hk2 _ (by decide)]
    exact hdefs1
  have hpv3 : optListOf (dictWithStrFields ["no", "resolution"])
      (rd3 "previous_deficiencies_resolved") = true := by
    rw [hk3 _ (by decide), hk2 _ (by decide), hk1 _ (by decide)]
    exact hprev
  obtain ⟨reps, h3, hrepsOk⟩ :=
    buildReplacementsPy_ok rd3 ov lo hscal3 hph3 hdf3 hpv3 hov hloOk
  obtain ⟨d1, h4⟩ := replaceEverywherePy_ok reps hrepsOk d
  have hatts3 : optListOf (fun _ => true) (rd3 "attachments_images") = true := by
    rw [hk3 _ (by decide), hk2 _ (by decide), hk1 _ (by decide)]
    exact hatts
  obtain ⟨la, hla, _⟩ := pyOrListFact hatts3
  rw [hdet] at h1 h2
  simp only [exportAfterLoad, hdet, h1, exBind_ok, h2, h3, h4, hla, exPure_ok]
  obtain ⟨d3, h5⟩ := embedImagesPy_ok o
    (if truthy (PyVal.list dl) = true then Doc.mk (fillBlocksPy (PyVal.list dl) d1.body)
     else d1) (.list la) la rfl
  rw [h5]
  simp only [exBind_ok]
  obtain ⟨safe, h6⟩ := slugifyTradePy_ok_rd rd3 "project_name" (hscal3 _ (by decide))
  rw [h6]
  exact ⟨(d3, safe ++ ".docx"), rfl⟩

/-- Witness for the amended C4: the empty record (every field absent) with
an empty document and a trivial image oracle. -/
theorem c4_welltyped_record_assembles_amended_witness :
    ∃ out, exportAfterLoad ⟨fun _ => Option.none, fun _ => false⟩ ⟨[]⟩
      (fun _ => Option.none) = .ok out :=
  c4_welltyped_record_assembles_amended ⟨fun _ => Option.none, fun _ => false⟩ ⟨[]⟩
    (fun _ => Option.none) (by rfl)

/-- Counterexample to C4 as stated: a record whose `detailed_findings` list
holds a non-dict element.  The deficiency derivation calls `.get` on it and
raises `AttributeError`; assembly fails instead of coercing the value to an
empty default. -/
theorem c4_wrong_typed_field_counterexample :
    exportAfterLoad ⟨fun _ => Option.none, fun _ => false⟩ ⟨[]⟩
        (fun k => if k = "detailed_findings" then some (.list [.str "oops"])
                  else Option.none) =
      .error "AttributeError: get" := by
  rfl

end Inspection
